import Mathlib

/-!
Verification of the SolGSN relay-fee ledger (`src/program-rust`).

The Rust sources are shallowly embedded: machine integers `u64`/`u32`/`u16`
become `Nat` with explicit `% 2^w` wherever overflow matters, `BTreeMap`
becomes a key-sorted association list, `Pubkey` becomes a list of bytes, a
Rust `Result` becomes `Except`, and the external transfer service (an opaque
collaborator) becomes an explicit `Except ProgramError Unit` parameter
describing the outcome of its single invocation.
-/

namespace SolGsn

/-! ## Machine arithmetic -/

/-- 2^64, the modulus of Rust `u64` arithmetic. -/
def U64MOD : Nat := 18446744073709551616

/-- Rust `u64` addition (release-mode wrapping semantics). -/
def u64add (a b : Nat) : Nat := (a + b) % U64MOD

/-! ## String order (Rust `Ord` for `String`)

Rust orders `String` keys lexicographically by UTF-8 bytes, which coincides
with lexicographic order on Unicode scalar values. -/

/-- Lexicographic order on the character lists underlying strings. -/
def charListLt : List Char → List Char → Bool
  | [], [] => false
  | [], _ :: _ => true
  | _ :: _, [] => false
  | a :: as, b :: bs =>
    if a.toNat < b.toNat then true
    else if b.toNat < a.toNat then false
    else charListLt as bs

/-- The key order used by the embedded `BTreeMap<String, _>`. -/
def strLt (a b : String) : Bool := charListLt a.data b.data

/-! ## `BTreeMap` model: key-sorted association lists -/

/-- `BTreeMap::get`. -/
def btGet {α : Type} : List (String × α) → String → Option α
  | [], _ => none
  | (k, v) :: t, key => if k = key then some v else btGet t key

/-- `BTreeMap::contains_key`. -/
def btContains {α : Type} (m : List (String × α)) (key : String) : Bool :=
  (btGet m key).isSome

/-- `BTreeMap::insert`: inserts at the sorted position, overwriting the value
stored under an equal key. -/
def btInsert {α : Type} : List (String × α) → String → α → List (String × α)
  | [], key, v => [(key, v)]
  | (k, w) :: t, key, v =>
    if strLt key k then (key, v) :: (k, w) :: t
    else if strLt k key then (k, w) :: btInsert t key v
    else (k, v) :: t

/-- `BTreeMap::entry(key).or_insert(v)`: inserts only when the key is absent;
an occupied entry is left untouched (the supplied value is discarded). -/
def btOrInsert {α : Type} (m : List (String × α)) (key : String) (v : α) :
    List (String × α) :=
  if btContains m key then m else btInsert m key v

/-- `BTreeMap::remove` (the returned old value is discarded by all callers). -/
def btRemove {α : Type} : List (String × α) → String → List (String × α)
  | [], _ => []
  | (k, w) :: t, key => if k = key then t else (k, w) :: btRemove t key

/-! ## Data model (`state.rs`) -/

/-- A Solana public key: 32 raw bytes. -/
abbrev Pubkey : Type := List Nat

/-- `FeeMode` from `state.rs`. -/
inductive FeeMode : Type
  /-- Fixed fee amount in lamports. -/
  | Fixed (amount : Nat)
  /-- Percentage fee in basis points. -/
  | Percent (basisPoints : Nat)
deriving DecidableEq

/-- `GovernanceConfig` from `state.rs`. -/
structure GovernanceConfig : Type where
  authority : Pubkey
  fee_mode : FeeMode
  allowed_tokens : List (String × Bool)
deriving DecidableEq

/-- `GsnInfo` from `state.rs`: the single persisted ledger record. -/
structure GsnInfo : Type where
  is_initialized : Bool
  consumer : List (String × Nat)
  executor : List (String × Nat)
  governance : Option GovernanceConfig
  consumer_nonces : List (String × Nat)
  transaction_executor : List (String × String)
deriving DecidableEq

namespace GsnInfo

/-- `GsnInfo::new`. -/
def new : GsnInfo :=
  { is_initialized := true
    consumer := []
    executor := []
    governance := none
    consumer_nonces := []
    transaction_executor := [] }

/-- `GsnInfo::add_consumer` (the returned `bool` is discarded by callers). -/
def add_consumer (g : GsnInfo) (address : String) (amount : Nat) : GsnInfo :=
  { g with consumer := btInsert g.consumer address amount }

/-- `GsnInfo::add_executor`. -/
def add_executor (g : GsnInfo) (address : String) (amount : Nat) : GsnInfo :=
  { g with executor := btInsert g.executor address amount }

/-- `GsnInfo::initialize_governance`. -/
def initialize_governance (g : GsnInfo) (authority : Pubkey) : GsnInfo :=
  { g with governance := some ⟨authority, FeeMode.Fixed 50000, []⟩ }

/-- `GsnInfo::calculate_fee`.  The percent branch multiplies in `u128`
(exact, since `u64 * u16 < 2^80 < 2^128`), divides by 10000, and casts the
quotient back with `as u64`, i.e. reduces it modulo `2^64`. -/
def calculate_fee (g : GsnInfo) (transaction_amount : Nat) : Nat :=
  match g.governance with
  | some gov =>
    match gov.fee_mode with
    | FeeMode.Fixed amount => amount
    | FeeMode.Percent basis_points =>
      (transaction_amount * basis_points / 10000) % U64MOD
  | none => 50000

/-- `GsnInfo::is_token_allowed`. -/
def is_token_allowed (g : GsnInfo) (token_mint : String) : Bool :=
  match g.governance with
  | some gov =>
    if gov.allowed_tokens.isEmpty then true
    else ((btGet gov.allowed_tokens token_mint).getD false)
  | none => true

/-- `GsnInfo::add_allowed_token`. -/
def add_allowed_token (g : GsnInfo) (token_mint : String) : GsnInfo :=
  match g.governance with
  | some gov =>
    let gov2 := { gov with allowed_tokens := btInsert gov.allowed_tokens token_mint true }
    { g with governance := some gov2 }
  | none => g

/-- `GsnInfo::remove_allowed_token`. -/
def remove_allowed_token (g : GsnInfo) (token_mint : String) : GsnInfo :=
  match g.governance with
  | some gov =>
    let gov2 := { gov with allowed_tokens := btRemove gov.allowed_tokens token_mint }
    { g with governance := some gov2 }
  | none => g

/-- `GsnInfo::update_fee_params`. -/
def update_fee_params (g : GsnInfo) (fee_mode : FeeMode) : GsnInfo :=
  match g.governance with
  | some gov => { g with governance := some ({ gov with fee_mode }) }
  | none => g

/-- `GsnInfo::is_authority`. -/
def is_authority (g : GsnInfo) (address : Pubkey) : Bool :=
  match g.governance with
  | some gov => gov.authority = address
  | none => false

/-- `GsnInfo::get_next_nonce`. -/
def get_next_nonce (g : GsnInfo) (consumer : String) : Nat :=
  (btGet g.consumer_nonces consumer).getD 0

/-- `GsnInfo::increment_nonce` (state effect; the returned nonce is discarded
by its caller in `process_submit_tx`).  `current_nonce + 1` is an unchecked
`u64` addition. -/
def increment_nonce (g : GsnInfo) (consumer : String) : GsnInfo :=
  let current_nonce := g.get_next_nonce consumer
  let next_nonce := u64add current_nonce 1
  { g with consumer_nonces := btInsert g.consumer_nonces consumer next_nonce }

/-- `GsnInfo::is_nonce_used`. -/
def is_nonce_used (g : GsnInfo) (consumer : String) (nonce : Nat) : Bool :=
  nonce < g.get_next_nonce consumer

/-- `GsnInfo::record_transaction_executor`.  The key is
`format!("{}:{}", consumer, nonce)`. -/
def record_transaction_executor (g : GsnInfo) (consumer : String) (nonce : Nat)
    (executor : String) : GsnInfo :=
  let key := consumer ++ ":" ++ Nat.repr nonce
  { g with transaction_executor := btInsert g.transaction_executor key executor }

/-- `GsnInfo::get_transaction_executor`. -/
def get_transaction_executor (g : GsnInfo) (consumer : String) (nonce : Nat) :
    Option String :=
  let key := consumer ++ ":" ++ Nat.repr nonce
  btGet g.transaction_executor key

end GsnInfo

/-! ## Errors (`error.rs`) -/

/-- `GsnError` from `error.rs`. -/
inductive GsnError : Type
  | AlreadyInUse
  | InvalidState
  | Unauthorized
  | GovernanceNotInitialized
  | InvalidFeeMode
  | InsufficientBalance
  | ReplayAttack
  | InvalidNonce
  | UnauthorizedFeeClaim
deriving DecidableEq

/-- The `u32` discriminant used by `From<GsnError> for ProgramError`. -/
def GsnError.code : GsnError → Nat
  | .AlreadyInUse => 0
  | .InvalidState => 1
  | .Unauthorized => 2
  | .GovernanceNotInitialized => 3
  | .InvalidFeeMode => 4
  | .InsufficientBalance => 5
  | .ReplayAttack => 6
  | .InvalidNonce => 7
  | .UnauthorizedFeeClaim => 8

/-- The subset of `solana_program::ProgramError` this program produces or
propagates. -/
inductive ProgramError : Type
  | invalidInstructionData
  | invalidAccountData
  | accountDataTooSmall
  | insufficientFunds
  | custom (code : Nat)
  | other (code : Nat)
deriving DecidableEq

/-- `GsnError → ProgramError` conversion (`ProgramError::Custom(e as u32)`). -/
def GsnError.toErr (e : GsnError) : ProgramError := ProgramError.custom e.code

/-! ## Instruction handlers (`processor.rs`)

Each handler is embedded at the ledger level: it receives the deserialized
`GsnInfo` together with the account data the Rust code extracts from its
positional account list (`Pubkey::to_string()` of an account key is supplied
by the host SDK, outside this repository; keys that the handler only ever
uses through `to_string()` are passed as the resulting opaque strings, as the
spec treats addresses as opaque identifiers).  The external transfer service
is passed as the outcome (`Except ProgramError Unit`) of its single
invocation; handlers report how many times they invoked it.  A handler's
`Except.ok` value is the record it reserializes into the account; on an
`Except.error` the Rust code returns before `serialize`, so the persisted
bytes are untouched. -/

instance exceptDecEq {ε α : Type} [DecidableEq ε] [DecidableEq α] :
    DecidableEq (Except ε α) := fun a b =>
  match a, b with
  | .ok x, .ok y => decidable_of_iff (x = y) (by simp)
  | .error x, .error y => decidable_of_iff (x = y) (by simp)
  | .ok _, .error _ => isFalse (by simp)
  | .error _, .ok _ => isFalse (by simp)

/-- Outcome of a handler that may invoke the external transfer service:
the handler result plus the number of transfer invocations performed. -/
structure StepResult : Type where
  result : Except ProgramError GsnInfo
  transferCalls : Nat
deriving DecidableEq

/-- `Processor::process_topup` (ledger part; the two `msg!` logs report
`previous_balance` and `new_balance = previous_balance + amount`).  Note the
occupied branch stores through `entry(..).or_insert(val)`. -/
def process_topup (amount : Nat) (consumer_key : String) (gsn : GsnInfo) :
    GsnInfo :=
  if btContains gsn.consumer consumer_key then
    match btGet gsn.consumer consumer_key with
    | some current_topup =>
      let val := u64add current_topup amount
      { gsn with consumer := btOrInsert gsn.consumer consumer_key val }
    | none => gsn.add_consumer consumer_key amount
  else gsn.add_consumer consumer_key amount

/-- `Processor::process_submit_tx` (ledger part).  `sender_key`,
`receiver_key` and `fee_payer_key` are the `to_string()` forms of the
sender, receiver and fee-payer (executor) account keys; `transfer` is the
outcome of the `invoke`d system transfer of `amount` from sender to
receiver. -/
def process_submit_tx (amount nonce : Nat)
    (sender_key receiver_key fee_payer_key : String)
    (transfer : Except ProgramError Unit) (gsn : GsnInfo) : StepResult :=
  if ¬ btContains gsn.consumer sender_key then
    ⟨.error ProgramError.invalidInstructionData, 0⟩
  else
    let expected_nonce := gsn.get_next_nonce sender_key
    if nonce ≠ expected_nonce then ⟨.error (GsnError.toErr .InvalidNonce), 0⟩
    else if gsn.is_nonce_used sender_key nonce then
      ⟨.error (GsnError.toErr .ReplayAttack), 0⟩
    else
      let fee := gsn.calculate_fee amount
      match btGet gsn.consumer sender_key with
      | none => ⟨.error (GsnError.toErr .InsufficientBalance), 0⟩
      | some current_balance =>
        if current_balance < fee then
          ⟨.error (GsnError.toErr .InsufficientBalance), 0⟩
        else
          match transfer with
          | .error e => ⟨.error e, 1⟩
          | .ok _ =>
            let g1 := gsn.record_transaction_executor sender_key nonce fee_payer_key
            let g2 := g1.increment_nonce sender_key
            let g3 :=
              if btContains g2.executor fee_payer_key then
                match btGet g2.executor fee_payer_key with
                | some earned_amount =>
                  let val := u64add earned_amount fee
                  { g2 with executor := btOrInsert g2.executor fee_payer_key val }
                | none => g2.add_executor fee_payer_key fee
              else g2.add_executor fee_payer_key fee
            let val := current_balance - fee
            let g4 := { g3 with consumer := btOrInsert g3.consumer sender_key val }
            ⟨.ok g4, 1⟩

/-- `Processor::process_update_fee_params`. -/
def process_update_fee_params (fee_mode_type fee_value : Nat)
    (authority_key : Pubkey) (authority_is_signer : Bool) (gsn : GsnInfo) :
    Except ProgramError GsnInfo :=
  if ¬ authority_is_signer then .error (GsnError.toErr .Unauthorized)
  else if ¬ gsn.is_authority authority_key then .error (GsnError.toErr .Unauthorized)
  else
    match fee_mode_type with
    | 0 => .ok (gsn.update_fee_params (FeeMode.Fixed fee_value))
    | 1 =>
      if fee_value > 10000 then .error (GsnError.toErr .InvalidFeeMode)
      else .ok (gsn.update_fee_params (FeeMode.Percent (fee_value % 65536)))
    | _ => .error (GsnError.toErr .InvalidFeeMode)

/-- `Processor::process_add_allowed_token`.  `mint_str` is
`Pubkey::new_from_array(args.mint).to_string()`. -/
def process_add_allowed_token (mint_str : String) (authority_key : Pubkey)
    (authority_is_signer : Bool) (gsn : GsnInfo) : Except ProgramError GsnInfo :=
  if ¬ authority_is_signer then .error (GsnError.toErr .Unauthorized)
  else if ¬ gsn.is_authority authority_key then .error (GsnError.toErr .Unauthorized)
  else .ok (gsn.add_allowed_token mint_str)

/-- `Processor::process_remove_allowed_token`. -/
def process_remove_allowed_token (mint_str : String) (authority_key : Pubkey)
    (authority_is_signer : Bool) (gsn : GsnInfo) : Except ProgramError GsnInfo :=
  if ¬ authority_is_signer then .error (GsnError.toErr .Unauthorized)
  else if ¬ gsn.is_authority authority_key then .error (GsnError.toErr .Unauthorized)
  else .ok (gsn.remove_allowed_token mint_str)

/-- `Processor::process_claim_fees`.  `executor_key`/`destination_key` are
the raw account keys (compared as `Pubkey`s); `executor_str` is
`executor_info.key.to_string()`, the map key; `transfer` is the outcome of
the `invoke`d system transfer of the earned fees from the ledger account to
the destination. -/
def process_claim_fees (executor_key destination_key : Pubkey)
    (executor_str : String) (executor_is_signer : Bool)
    (transfer : Except ProgramError Unit) (gsn : GsnInfo) : StepResult :=
  if ¬ executor_is_signer then ⟨.error (GsnError.toErr .UnauthorizedFeeClaim), 0⟩
  else if executor_key ≠ destination_key then
    ⟨.error (GsnError.toErr .UnauthorizedFeeClaim), 0⟩
  else
    let earned_fees := (btGet gsn.executor executor_str).getD 0
    if earned_fees = 0 then ⟨.error ProgramError.insufficientFunds, 0⟩
    else
      match transfer with
      | .error e => ⟨.error e, 1⟩
      | .ok _ => ⟨.ok ({ gsn with executor := btInsert gsn.executor executor_str 0 }), 1⟩

/-- `Processor::process_initialize` (ledger part): fresh record, optional
governance seeding; fails `Unauthorized` when an authority account is
supplied but did not sign. -/
def process_initialize (authority : Option (Pubkey × Bool)) :
    Except ProgramError GsnInfo :=
  let gsn := GsnInfo.new
  match authority with
  | some (key, is_signer) =>
    if ¬ is_signer then .error (GsnError.toErr .Unauthorized)
    else .ok (gsn.initialize_governance key)
  | none => .ok gsn

/-- The record persisted in the ledger account after a handler runs: the
reserialized record on success, the untouched previous record on failure
(every Rust failure path returns before `serialize`). -/
def persistedAfter (old : GsnInfo) (res : Except ProgramError GsnInfo) : GsnInfo :=
  match res with
  | .ok g => g
  | .error _ => old

/-! ## Borsh serialization model (`GsnInfo::serialize` / `deserialize`)

Byte streams are `List Nat` with every element below 256.  The encoding
follows borsh: `bool` is one byte 0/1, integers are fixed-width
little-endian, `String` is a `u32` byte-length prefix followed by UTF-8
bytes, `BTreeMap` is a `u32` entry count followed by the entries in
ascending key order, `Option` and enums carry a one-byte tag, and a
`Pubkey` is its 32 raw bytes.  Deserialization mirrors borsh's
`BorshDeserialize::deserialize`: it validates tags and UTF-8, fails on
short input, collects map entries back with `insert`, and does not demand
that the buffer be fully consumed. -/

/-- Little-endian byte encoding, `w` bytes wide. -/
def leBytes : Nat → Nat → List Nat
  | 0, _ => []
  | w + 1, n => n % 256 :: leBytes w (n / 256)

/-- Value of a little-endian byte list. -/
def leVal : List Nat → Nat
  | [] => 0
  | b :: t => b + 256 * leVal t

/-- borsh `bool` encoding. -/
def encBool (b : Bool) : List Nat := [if b then 1 else 0]

/-- borsh `u16` encoding. -/
def encU16 (n : Nat) : List Nat := leBytes 2 n

/-- borsh `u32` encoding. -/
def encU32 (n : Nat) : List Nat := leBytes 4 n

/-- borsh `u64` encoding. -/
def encU64 (n : Nat) : List Nat := leBytes 8 n

/-- UTF-8 encoding of one Unicode scalar value. -/
def utf8EncodeChar (c : Char) : List Nat :=
  let n := c.toNat
  if n < 128 then [n]
  else if n < 2048 then [192 + n / 64, 128 + n % 64]
  else if n < 65536 then [224 + n / 4096, 128 + n / 64 % 64, 128 + n % 64]
  else [240 + n / 262144, 128 + n / 4096 % 64, 128 + n / 64 % 64, 128 + n % 64]

/-- UTF-8 bytes of a character list. -/
def utf8BytesOf (cs : List Char) : List Nat :=
  match cs with
  | [] => []
  | c :: t => utf8EncodeChar c ++ utf8BytesOf t

/-- UTF-8 bytes of a string. -/
def utf8Bytes (s : String) : List Nat := utf8BytesOf s.data

/-- borsh `String` encoding: `u32` byte length, then UTF-8 bytes. -/
def encStr (s : String) : List Nat := encU32 (utf8Bytes s).length ++ utf8Bytes s

/-- borsh `BTreeMap<String, _>` encoding: `u32` entry count, then the
entries in stored (ascending-key) order. -/
def encMap {α : Type} (encV : α → List Nat) (m : List (String × α)) : List Nat :=
  encU32 m.length ++ encEntries encV m
where
  /-- Concatenated `(key, value)` encodings. -/
  encEntries (encV : α → List Nat) : List (String × α) → List Nat
    | [] => []
    | kv :: t => encStr kv.1 ++ encV kv.2 ++ encEntries encV t

/-- borsh `Pubkey` (`[u8; 32]`) encoding: the raw bytes. -/
def encPubkey (p : Pubkey) : List Nat := p

/-- borsh `FeeMode` encoding: `u8` variant tag then the payload. -/
def encFeeMode : FeeMode → List Nat
  | .Fixed amount => 0 :: encU64 amount
  | .Percent bp => 1 :: encU16 bp

/-- borsh `GovernanceConfig` encoding. -/
def encGov (gov : GovernanceConfig) : List Nat :=
  encPubkey gov.authority ++ encFeeMode gov.fee_mode ++ encMap encBool gov.allowed_tokens

/-- borsh `Option<GovernanceConfig>` encoding. -/
def encOptGov : Option GovernanceConfig → List Nat
  | none => [0]
  | some gov => 1 :: encGov gov

/-- The borsh byte stream of a `GsnInfo` record, field by field. -/
def serializeBytes (g : GsnInfo) : List Nat :=
  encBool g.is_initialized
    ++ encMap encU64 g.consumer
    ++ encMap encU64 g.executor
    ++ encOptGov g.governance
    ++ encMap encU64 g.consumer_nonces
    ++ encMap encStr g.transaction_executor

/-- `GsnInfo::serialize` writes the byte stream into the account's data
buffer and fails with `AccountDataTooSmall` when it does not fit. -/
def serializeInto (g : GsnInfo) (buf_len : Nat) : Except ProgramError Unit :=
  if (serializeBytes g).length ≤ buf_len then .ok () else .error ProgramError.accountDataTooSmall

/-- Reads exactly `n` bytes, failing on short input. -/
def readBytes (n : Nat) (l : List Nat) : Option (List Nat × List Nat) :=
  if n ≤ l.length then some (l.take n, l.drop n) else none

/-- Parses a `w`-byte little-endian unsigned integer. -/
def pUInt (w : Nat) (l : List Nat) : Option (Nat × List Nat) :=
  match readBytes w l with
  | some (chunk, rest) => some (leVal chunk, rest)
  | none => none

/-- Parses a borsh `bool`, rejecting any byte other than 0 or 1. -/
def pBool (l : List Nat) : Option (Bool × List Nat) :=
  match l with
  | 0 :: t => some (false, t)
  | 1 :: t => some (true, t)
  | _ => none

/-- Builds a `Char` from a decoded scalar value, rejecting surrogates and
out-of-range values. -/
def mkChar? (n : Nat) (rest : List Nat) : Option (Char × List Nat) :=
  if n < 55296 ∨ (57344 ≤ n ∧ n < 1114112) then some (Char.ofNat n, rest) else none

/-- Strict UTF-8 decoding of one scalar value (rejects overlong forms,
surrogates, and values above `0x10FFFF`, as Rust's `String::from_utf8`
does). -/
def utf8DecodeChar (l : List Nat) : Option (Char × List Nat) :=
  match l with
  | [] => none
  | b0 :: t0 =>
    if b0 < 128 then mkChar? b0 t0
    else if b0 < 194 then none
    else if b0 < 224 then
      match t0 with
      | b1 :: t1 =>
        if 128 ≤ b1 ∧ b1 < 192 then mkChar? ((b0 - 192) * 64 + (b1 - 128)) t1
        else none
      | [] => none
    else if b0 < 240 then
      match t0 with
      | b1 :: b2 :: t2 =>
        if (128 ≤ b1 ∧ b1 < 192) ∧ (128 ≤ b2 ∧ b2 < 192) ∧ (b0 ≠ 224 ∨ 160 ≤ b1) then
          mkChar? ((b0 - 224) * 4096 + (b1 - 128) * 64 + (b2 - 128)) t2
        else none
      | _ => none
    else if b0 < 245 then
      match t0 with
      | b1 :: b2 :: b3 :: t3 =>
        if (128 ≤ b1 ∧ b1 < 192) ∧ (128 ≤ b2 ∧ b2 < 192) ∧ (128 ≤ b3 ∧ b3 < 192)
            ∧ (b0 ≠ 240 ∨ 144 ≤ b1) then
          mkChar? ((b0 - 240) * 262144 + (b1 - 128) * 4096 + (b2 - 128) * 64 + (b3 - 128)) t3
        else none
      | _ => none
    else none

/-- Decodes a whole UTF-8 chunk into characters (`fuel` bounds the number
of characters; callers pass the chunk length). -/
def utf8Decode : Nat → List Nat → Option (List Char)
  | _, [] => some []
  | 0, _ :: _ => none
  | fuel + 1, l =>
    match utf8DecodeChar l with
    | some (c, rest) =>
      match utf8Decode fuel rest with
      | some cs => some (c :: cs)
      | none => none
    | none => none

/-- Parses a borsh `String`: `u32` byte length, that many bytes, strict
UTF-8 validation of the chunk. -/
def pStr (l : List Nat) : Option (String × List Nat) :=
  match pUInt 4 l with
  | some (len, r1) =>
    match readBytes len r1 with
    | some (chunk, r2) =>
      match utf8Decode chunk.length chunk with
      | some cs => some (String.mk cs, r2)
      | none => none
    | none => none
  | none => none

/-- Parses `n` consecutive `(String, α)` entries. -/
def pEntries {α : Type} (pV : List Nat → Option (α × List Nat)) :
    Nat → List Nat → Option (List (String × α) × List Nat)
  | 0, l => some ([], l)
  | n + 1, l =>
    match pStr l with
    | some (k, r1) =>
      match pV r1 with
      | some (v, r2) =>
        match pEntries pV n r2 with
        | some (es, r3) => some ((k, v) :: es, r3)
        | none => none
      | none => none
    | none => none

/-- Parses a borsh `BTreeMap<String, α>`: `u32` count, that many entries,
collected back with `insert` (as borsh's `BTreeMap` impl does). -/
def pMap {α : Type} (pV : List Nat → Option (α × List Nat)) (l : List Nat) :
    Option (List (String × α) × List Nat) :=
  match pUInt 4 l with
  | some (n, r1) =>
    match pEntries pV n r1 with
    | some (es, r2) => some (es.foldl (fun m kv => btInsert m kv.1 kv.2) [], r2)
    | none => none
  | none => none

/-- Parses a `Pubkey`: 32 raw bytes. -/
def pPubkey (l : List Nat) : Option (Pubkey × List Nat) :=
  match readBytes 32 l with
  | some (chunk, rest) => some (chunk, rest)
  | none => none

/-- Parses a borsh `FeeMode`. -/
def pFeeMode (l : List Nat) : Option (FeeMode × List Nat) :=
  match l with
  | 0 :: t =>
    match pUInt 8 t with
    | some (a, rest) => some (FeeMode.Fixed a, rest)
    | none => none
  | 1 :: t =>
    match pUInt 2 t with
    | some (bp, rest) => some (FeeMode.Percent bp, rest)
    | none => none
  | _ => none

/-- Parses a borsh `GovernanceConfig`. -/
def pGov (l : List Nat) : Option (GovernanceConfig × List Nat) :=
  match pPubkey l with
  | some (pk, r1) =>
    match pFeeMode r1 with
    | some (fm, r2) =>
      match pMap pBool r2 with
      | some (at_, r3) => some (⟨pk, fm, at_⟩, r3)
      | none => none
    | none => none
  | none => none

/-- Parses a borsh `Option<GovernanceConfig>`. -/
def pOptGov (l : List Nat) : Option (Option GovernanceConfig × List Nat) :=
  match l with
  | 0 :: t => some (none, t)
  | 1 :: t =>
    match pGov t with
    | some (gov, rest) => some (some gov, rest)
    | none => none
  | _ => none

/-- Parses a whole `GsnInfo` record, field by field. -/
def pRecord (l : List Nat) : Option (GsnInfo × List Nat) :=
  match pBool l with
  | some (ini, r1) =>
    match pMap (pUInt 8) r1 with
    | some (cons, r2) =>
      match pMap (pUInt 8) r2 with
      | some (exec, r3) =>
        match pOptGov r3 with
        | some (gov, r4) =>
          match pMap (pUInt 8) r4 with
          | some (nonces, r5) =>
            match pMap pStr r5 with
            | some (txe, r6) => some (⟨ini, cons, exec, gov, nonces, txe⟩, r6)
            | none => none
          | none => none
        | none => none
      | none => none
    | none => none
  | none => none

/-- `GsnInfo::deserialize`: borsh deserialization of the record, mapping
any failure to `InvalidAccountData`.  Borsh's `deserialize` does not
require the buffer to be fully consumed, so trailing bytes are ignored. -/
def deserializeBytes (data : List Nat) : Except ProgramError GsnInfo :=
  match pRecord data with
  | some (g, _) => .ok g
  | none => .error ProgramError.invalidAccountData

/-! ## Well-formedness: the invariants `BTreeMap` and the Rust types
guarantee for every record the program can hold in memory. -/

/-- Keys strictly ascending in the stored order (what `BTreeMap` iteration
guarantees). -/
abbrev wfKeys {α : Type} (m : List (String × α)) : Prop :=
  List.Pairwise (fun a b => strLt a.1 b.1 = true) m

/-- A string whose borsh length prefix fits `u32`. -/
abbrev wfStr (s : String) : Prop := (utf8Bytes s).length < 4294967296

/-- A `BTreeMap<String, u64>` image. -/
abbrev wfMapU64 (m : List (String × Nat)) : Prop :=
  wfKeys m ∧ m.length < 4294967296 ∧ ∀ kv ∈ m, wfStr kv.1 ∧ kv.2 < U64MOD

/-- A `BTreeMap<String, bool>` image. -/
abbrev wfMapBool (m : List (String × Bool)) : Prop :=
  wfKeys m ∧ m.length < 4294967296 ∧ ∀ kv ∈ m, wfStr kv.1

/-- A `BTreeMap<String, String>` image. -/
abbrev wfMapStr (m : List (String × String)) : Prop :=
  wfKeys m ∧ m.length < 4294967296 ∧ ∀ kv ∈ m, wfStr kv.1 ∧ wfStr kv.2

/-- A `FeeMode` image (`u64` / `u16` payload ranges). -/
abbrev wfFeeMode : FeeMode → Prop
  | .Fixed amount => amount < U64MOD
  | .Percent bp => bp < 65536

instance wfFeeModeDecidable : DecidablePred wfFeeMode := fun fm =>
  match fm with
  | .Fixed a => inferInstanceAs (Decidable (a < U64MOD))
  | .Percent bp => inferInstanceAs (Decidable (bp < 65536))

/-- A `GovernanceConfig` image. -/
abbrev wfGov (gov : GovernanceConfig) : Prop :=
  gov.authority.length = 32 ∧ (∀ b ∈ (gov.authority : List Nat), b < 256)
    ∧ wfFeeMode gov.fee_mode ∧ wfMapBool gov.allowed_tokens

/-- A `GsnInfo` image: what any record held by the Rust program (hence any
reachable record) satisfies by construction of its types. -/
instance optionBAllDecidable {α : Type} (p : α → Prop) [DecidablePred p]
    (o : Option α) : Decidable (∀ x ∈ o, p x) :=
  match o with
  | none => isTrue (by simp)
  | some a => decidable_of_iff (p a) (by simp)

abbrev wfRecord (g : GsnInfo) : Prop :=
  wfMapU64 g.consumer ∧ wfMapU64 g.executor
    ∧ (∀ gov ∈ g.governance, wfGov gov)
    ∧ wfMapU64 g.consumer_nonces ∧ wfMapStr g.transaction_executor

/-! ## Helper lemmas -/

theorem charListLt_irrefl (l : List Char) : charListLt l l = false := by
  induction l with
  | nil => rfl
  | cons a t ih => simp [charListLt, ih]

theorem strLt_irrefl (s : String) : strLt s s = false := charListLt_irrefl _

theorem charToNat_inj {a b : Char} (h : a.toNat = b.toNat) : a = b := by
  rw [← Char.ofNat_toNat a, ← Char.ofNat_toNat b, h]

theorem charListLt_eq_of_not_lt :
    ∀ {a b : List Char}, charListLt a b = false → charListLt b a = false → a = b := by
  intro a
  induction a with
  | nil =>
    intro b h1 h2
    cases b with
    | nil => rfl
    | cons d u => simp [charListLt] at h1
  | cons c t ih =>
    intro b h1 h2
    cases b with
    | nil => simp [charListLt] at h2
    | cons d u =>
      simp only [charListLt] at h1 h2
      by_cases hcd : c.toNat < d.toNat
      · rw [if_pos hcd] at h1; exact absurd h1 (by simp)
      · by_cases hdc : d.toNat < c.toNat
        · rw [if_pos hdc] at h2; exact absurd h2 (by simp)
        · rw [if_neg hcd, if_neg hdc] at h1
          rw [if_neg hdc, if_neg hcd] at h2
          have hc : c = d := charToNat_inj (by omega)
          rw [hc, ih h1 h2]

theorem strLt_eq_of_not_lt {a b : String} (h1 : strLt a b = false)
    (h2 : strLt b a = false) : a = b :=
  String.ext (charListLt_eq_of_not_lt h1 h2)

theorem btGet_btInsert_self {α : Type} (m : List (String × α)) (k : String) (v : α) :
    btGet (btInsert m k v) k = some v := by
  induction m with
  | nil => simp [btInsert, btGet]
  | cons hd t ih =>
    obtain ⟨k', w⟩ := hd
    by_cases h1 : strLt k k' = true
    · simp [btInsert, h1, btGet]
    · by_cases h2 : strLt k' k = true
      · have hne : k' ≠ k := by
          intro he; subst he; rw [strLt_irrefl] at h2; exact absurd h2 (by simp)
        simp [btInsert, h1, h2, btGet, hne, ih]
      · have hkk : k' = k :=
          strLt_eq_of_not_lt (by simpa using h2) (by simpa using h1)
        have hins : btInsert ((k', w) :: t) k v = (k', v) :: t := by
          simp [btInsert, h1, h2]
        rw [hins]
        simp [btGet, hkk]

/-! ## Claim C1 -/

/-- C1: the claim asserts that a fully validated `SubmitTransaction` with a
successful transfer persists all four updates, and in particular that
Scenario B (`TopUp 1_000_000` then `SubmitTransaction(amount 500_000,
nonce 0)` under `Fixed 100_000`) leaves the consumer balance at 900_000.
The code records the executor, advances the nonce and credits the executor,
but the consumer debit is written through `entry(sender).or_insert(val)`,
which never overwrites the occupied entry: the persisted consumer balance
stays 1_000_000, contradicting both the claim and the handler's own
`[FEE_DEDUCTION] ... new_balance` log. -/
theorem submit_tx_scenarioB_consumer_not_debited :
    (process_submit_tx 500000 0 "C" "R" "E" (.ok ()) (process_topup 1000000 "C"
          ((GsnInfo.new.initialize_governance [7]).update_fee_params
            (FeeMode.Fixed 100000)))).result.map
        (fun g => (btGet g.consumer "C", btGet g.executor "E",
          btGet g.consumer_nonces "C", btGet g.transaction_executor "C:0"))
      = .ok (some 1000000, some 100000, some 1, some "E")
      ∧ (process_submit_tx 500000 0 "C" "R" "E" (.ok ()) (process_topup 1000000 "C"
          ((GsnInfo.new.initialize_governance [7]).update_fee_params
            (FeeMode.Fixed 100000)))).transferCalls = 1
      ∧ ¬ (process_submit_tx 500000 0 "C" "R" "E" (.ok ()) (process_topup 1000000 "C"
          ((GsnInfo.new.initialize_governance [7]).update_fee_params
            (FeeMode.Fixed 100000)))).result.map (fun g => btGet g.consumer "C")
        = .ok (some 900000) := by
  decide

/-! ## Claim C2 -/

/-- C2: the claim asserts `TopUp(amount)` always leaves the stored balance
at `previous + amount`, equally when the entry already exists.  The fresh
case does store `amount`, but the occupied branch computes
`current_topup + amount` and stores it through `entry(..).or_insert`, which
leaves the occupied entry untouched: topping up an existing balance of 5 by
7 leaves 5, not 12, contradicting the claim (and the handler's own
`[TOPUP] ... new_balance` log). -/
theorem topup_existing_entry_not_credited :
    (process_topup 7 "C" { GsnInfo.new with consumer := [("C", 5)] }).consumer
        = [("C", 5)]
      ∧ btGet (process_topup 7 "C"
          { GsnInfo.new with consumer := [("C", 5)] }).consumer "C" = some 5
      ∧ ¬ btGet (process_topup 7 "C"
          { GsnInfo.new with consumer := [("C", 5)] }).consumer "C" = some 12
      ∧ btGet (process_topup 7 "D"
          { GsnInfo.new with consumer := [("C", 5)] }).consumer "D" = some 7 := by
  decide

/-! ## Claim C3 -/

/-- C3 counterexample: replaying nonce 0 after a successful submission
(expected nonce 1) fails with `InvalidNonce`, not `ReplayAttack` as the
claim states: the `nonce != expected` check precedes the `is_nonce_used`
check, which is unreachable. -/
theorem replayed_nonce_fails_invalid_nonce_not_replay :
    let gsn := { GsnInfo.new with consumer := [("C", 900000)], consumer_nonces := [("C", 1)] }
    let res := process_submit_tx 500000 0 "C" "R" "E" (.ok ()) gsn
    res.result = .error (GsnError.toErr .InvalidNonce)
      ∧ res.result ≠ .error (GsnError.toErr .ReplayAttack)
      ∧ res.transferCalls = 0 := by
  decide

/-- C3 amended: for a consumer with a balance entry, any nonce different
from the expected one — below it (replay) or above it (skip) — fails with
`InvalidNonce`, the transfer service is never invoked, and the persisted
record is unchanged. -/
theorem nonce_mismatch_fails_invalid_nonce_no_mutation
    (gsn : GsnInfo) (amount nonce : Nat) (s r e : String)
    (tr : Except ProgramError Unit)
    (hc : btContains gsn.consumer s = true)
    (hn : nonce ≠ gsn.get_next_nonce s) :
    process_submit_tx amount nonce s r e tr gsn
        = ⟨.error (GsnError.toErr .InvalidNonce), 0⟩
      ∧ persistedAfter gsn (process_submit_tx amount nonce s r e tr gsn).result = gsn := by
  have hres : process_submit_tx amount nonce s r e tr gsn
      = ⟨.error (GsnError.toErr .InvalidNonce), 0⟩ := by
    unfold process_submit_tx
    rw [if_neg (by simp [hc])]
    simp only []
    rw [if_pos hn]
  refine ⟨hres, ?_⟩
  rw [hres]
  simp [persistedAfter]

/-- Witness for the amended C3 theorem at a concrete replay input. -/
theorem nonce_mismatch_fails_invalid_nonce_no_mutation_witness :
    (btContains ({ GsnInfo.new with consumer := [("C", 900000)], consumer_nonces := [("C", 1)] } : GsnInfo).consumer "C" = true)
      ∧ ((0 : Nat) ≠ ({ GsnInfo.new with consumer := [("C", 900000)], consumer_nonces := [("C", 1)] } : GsnInfo).get_next_nonce "C")
      ∧ (process_submit_tx 500000 0 "C" "R" "E" (.ok ())
            ({ GsnInfo.new with consumer := [("C", 900000)], consumer_nonces := [("C", 1)] })
          = ⟨.error (GsnError.toErr .InvalidNonce), 0⟩
        ∧ persistedAfter ({ GsnInfo.new with consumer := [("C", 900000)], consumer_nonces := [("C", 1)] })
            (process_submit_tx 500000 0 "C" "R" "E" (.ok ())
              ({ GsnInfo.new with consumer := [("C", 900000)], consumer_nonces := [("C", 1)] })).result
          = { GsnInfo.new with consumer := [("C", 900000)], consumer_nonces := [("C", 1)] }) :=
  ⟨by decide, by decide,
    nonce_mismatch_fails_invalid_nonce_no_mutation _ 500000 0 "C" "R" "E" (.ok ())
      (by decide) (by decide)⟩

/-! ## Claim C6 -/

/-- C6 counterexample: for `Percent(65535)` basis points and the maximal
`u64` amount, `calculate_fee` casts the `u128` quotient back `as u64`,
truncating it: the result differs from `floor(amount * bp / 10000)`, so the
fee is not computed without overflow over the full `u64 × u16` range. -/
theorem calculate_fee_percent_truncates :
    let g := { GsnInfo.new with governance := some ⟨[7], FeeMode.Percent 65535, []⟩ }
    g.calculate_fee (U64MOD - 1) ≠ (U64MOD - 1) * 65535 / 10000 := by
  decide

/-- C6 amended: `calculate_fee` is total and pure; it returns the fallback
constant 50000 with governance absent, the fixed amount `F` for every
amount under `Fixed F`, and under `Percent bp` it returns
`floor(amount * bp / 10000) mod 2^64`, which equals the untruncated
`floor(amount * bp / 10000)` whenever `bp ≤ 10000` (every value storable
through `UpdateFeeParams`). -/
theorem calculate_fee_characterization
    (gsn : GsnInfo) (gov : GovernanceConfig) (amount f bp : Nat) :
    (gsn.governance = none → gsn.calculate_fee amount = 50000)
      ∧ (gsn.governance = some gov → gov.fee_mode = FeeMode.Fixed f →
          gsn.calculate_fee amount = f)
      ∧ (gsn.governance = some gov → gov.fee_mode = FeeMode.Percent bp →
          gsn.calculate_fee amount = (amount * bp / 10000) % U64MOD
            ∧ (amount < U64MOD → bp ≤ 10000 →
                gsn.calculate_fee amount = amount * bp / 10000)) := by
  refine ⟨?_, ?_, ?_⟩
  · intro h; simp [GsnInfo.calculate_fee, h]
  · intro h hf; simp [GsnInfo.calculate_fee, h, hf]
  · intro h hp
    have hbase : gsn.calculate_fee amount = (amount * bp / 10000) % U64MOD := by
      simp [GsnInfo.calculate_fee, h, hp]
    refine ⟨hbase, fun ha hbp => ?_⟩
    rw [hbase]
    apply Nat.mod_eq_of_lt
    have h1 : amount * bp ≤ amount * 10000 := Nat.mul_le_mul_left amount hbp
    have h2 : amount * bp / 10000 ≤ amount * 10000 / 10000 := Nat.div_le_div_right h1
    have h3 : amount * 10000 / 10000 = amount := by
      rw [Nat.mul_div_cancel]
      omega
    omega

/-- Witness for the C6 amended theorem at concrete inputs. -/
theorem calculate_fee_characterization_witness :
    (({ GsnInfo.new with governance := some ⟨[7], FeeMode.Percent 100, []⟩ } : GsnInfo).governance
        = some ⟨[7], FeeMode.Percent 100, []⟩ → True)
      ∧ ((({ GsnInfo.new with governance := some ⟨[7], FeeMode.Percent 100, []⟩ } : GsnInfo).governance = none →
            ({ GsnInfo.new with governance := some ⟨[7], FeeMode.Percent 100, []⟩ } : GsnInfo).calculate_fee 1000000 = 50000)
          ∧ (({ GsnInfo.new with governance := some ⟨[7], FeeMode.Percent 100, []⟩ } : GsnInfo).governance = some ⟨[7], FeeMode.Percent 100, []⟩ →
              (⟨[7], FeeMode.Percent 100, []⟩ : GovernanceConfig).fee_mode = FeeMode.Fixed 0 →
              ({ GsnInfo.new with governance := some ⟨[7], FeeMode.Percent 100, []⟩ } : GsnInfo).calculate_fee 1000000 = 0)
          ∧ (({ GsnInfo.new with governance := some ⟨[7], FeeMode.Percent 100, []⟩ } : GsnInfo).governance = some ⟨[7], FeeMode.Percent 100, []⟩ →
              (⟨[7], FeeMode.Percent 100, []⟩ : GovernanceConfig).fee_mode = FeeMode.Percent 100 →
              ({ GsnInfo.new with governance := some ⟨[7], FeeMode.Percent 100, []⟩ } : GsnInfo).calculate_fee 1000000 = (1000000 * 100 / 10000) % U64MOD
                ∧ (1000000 < U64MOD → 100 ≤ 10000 →
                    ({ GsnInfo.new with governance := some ⟨[7], FeeMode.Percent 100, []⟩ } : GsnInfo).calculate_fee 1000000 = 1000000 * 100 / 10000))) :=
  ⟨fun _ => trivial,
    calculate_fee_characterization _ ⟨[7], FeeMode.Percent 100, []⟩ 1000000 0 100⟩

/-! ## Claim C4 -/

/-- C4 counterexample: a submission whose consumer balance (1) is below the
fee (the fallback 50000) but whose nonce is wrong fails with `InvalidNonce`,
not `InsufficientBalance`: the balance claim does not hold for every
submission with an insufficient balance, only for those that pass the
earlier existence and nonce checks. -/
theorem insufficient_balance_error_needs_prior_checks :
    let gsn := { GsnInfo.new with consumer := [("C", 1)] }
    let res := process_submit_tx 100 1 "C" "R" "E" (.ok ()) gsn
    ((btGet gsn.consumer "C").getD 0 < gsn.calculate_fee 100)
      ∧ res.result = .error (GsnError.toErr .InvalidNonce)
      ∧ res.result ≠ .error (GsnError.toErr .InsufficientBalance)
      ∧ res.transferCalls = 0 := by
  decide

/-- C4 amended: for a submission that passes the consumer-existence and
nonce checks, a balance below the fee fails with `InsufficientBalance` and
the transfer service is never invoked; moreover on every execution path the
transfer is invoked only when the fee is covered, i.e. the
balance-sufficiency check is sequenced strictly before the transfer. -/
theorem insufficient_balance_blocks_transfer :
    (∀ (gsn : GsnInfo) (amount nonce : Nat) (s r e : String)
        (tr : Except ProgramError Unit),
      btContains gsn.consumer s = true →
      nonce = gsn.get_next_nonce s →
      (btGet gsn.consumer s).getD 0 < gsn.calculate_fee amount →
      process_submit_tx amount nonce s r e tr gsn
        = ⟨.error (GsnError.toErr .InsufficientBalance), 0⟩)
    ∧ (∀ (gsn : GsnInfo) (amount nonce : Nat) (s r e : String)
          (tr : Except ProgramError Unit),
        (process_submit_tx amount nonce s r e tr gsn).transferCalls ≠ 0 →
        gsn.calculate_fee amount ≤ (btGet gsn.consumer s).getD 0) := by
  constructor
  · intro gsn amount nonce s r e tr hc hn hb
    have hbal : ∃ bal, btGet gsn.consumer s = some bal := by
      rcases hx : btGet gsn.consumer s with _ | bal
      · rw [btContains, hx] at hc; simp at hc
      · exact ⟨bal, rfl⟩
    obtain ⟨bal, hbalq⟩ := hbal
    rw [hbalq] at hb
    simp only [Option.getD_some] at hb
    simp [process_submit_tx, hc, hn, GsnInfo.is_nonce_used, hbalq, hb]
  · intro gsn amount nonce s r e tr h
    simp only [process_submit_tx] at h
    split at h
    · simp at h
    · split at h
      · simp at h
      · split at h
        · simp at h
        · split at h
          · simp at h
          · next bal heq =>
            split at h
            · simp at h
            · next hnl =>
              rw [heq]
              simp only [Option.getD_some]
              omega

/-- Witness for the amended C4 theorem at a concrete input. -/
theorem insufficient_balance_blocks_transfer_witness :
    (btContains ({ GsnInfo.new with consumer := [("C", 1)] } : GsnInfo).consumer "C" = true)
      ∧ ((0 : Nat) = ({ GsnInfo.new with consumer := [("C", 1)] } : GsnInfo).get_next_nonce "C")
      ∧ ((btGet ({ GsnInfo.new with consumer := [("C", 1)] } : GsnInfo).consumer "C").getD 0
          < ({ GsnInfo.new with consumer := [("C", 1)] } : GsnInfo).calculate_fee 100)
      ∧ process_submit_tx 100 0 "C" "R" "E" (.ok ())
            ({ GsnInfo.new with consumer := [("C", 1)] })
          = ⟨.error (GsnError.toErr .InsufficientBalance), 0⟩ :=
  ⟨by decide, by decide, by decide,
    insufficient_balance_blocks_transfer.1 _ 100 0 "C" "R" "E" (.ok ())
      (by decide) (by decide) (by decide)⟩

/-! ## Claim C5 -/

/-- C5: when the external transfer fails, `process_submit_tx` and
`process_claim_fees` propagate the transfer's error verbatim and persist
nothing: the record serialized in the account is exactly the record from
before the call (every failure path returns before `serialize`). -/
theorem transfer_failure_propagates_error_no_mutation :
    (∀ (gsn : GsnInfo) (amount nonce : Nat) (s r e : String)
        (err : ProgramError),
      btContains gsn.consumer s = true →
      nonce = gsn.get_next_nonce s →
      gsn.calculate_fee amount ≤ (btGet gsn.consumer s).getD 0 →
      process_submit_tx amount nonce s r e (.error err) gsn = ⟨.error err, 1⟩
        ∧ persistedAfter gsn
            (process_submit_tx amount nonce s r e (.error err) gsn).result = gsn)
    ∧ (∀ (gsn : GsnInfo) (ek : Pubkey) (es : String) (err : ProgramError),
        (btGet gsn.executor es).getD 0 ≠ 0 →
        process_claim_fees ek ek es true (.error err) gsn = ⟨.error err, 1⟩
          ∧ persistedAfter gsn
              (process_claim_fees ek ek es true (.error err) gsn).result = gsn) := by
  constructor
  · intro gsn amount nonce s r e err hc hn hfee
    have hbal : ∃ bal, btGet gsn.consumer s = some bal := by
      rcases hx : btGet gsn.consumer s with _ | bal
      · rw [btContains, hx] at hc; simp at hc
      · exact ⟨bal, rfl⟩
    obtain ⟨bal, hbalq⟩ := hbal
    rw [hbalq] at hfee
    simp only [Option.getD_some] at hfee
    have hres : process_submit_tx amount nonce s r e (.error err) gsn = ⟨.error err, 1⟩ := by
      simp [process_submit_tx, hc, hn, GsnInfo.is_nonce_used, hbalq, Nat.not_lt.mpr hfee]
    exact ⟨hres, by rw [hres]; rfl⟩
  · intro gsn ek es err hearn
    have hres : process_claim_fees ek ek es true (.error err) gsn = ⟨.error err, 1⟩ := by
      simp [process_claim_fees, hearn]
    exact ⟨hres, by rw [hres]; rfl⟩

/-- Witness for the C5 theorem at a concrete input. -/
theorem transfer_failure_propagates_error_no_mutation_witness :
    (btContains ({ GsnInfo.new with consumer := [("C", 70000)] } : GsnInfo).consumer "C" = true)
      ∧ ((0 : Nat) = ({ GsnInfo.new with consumer := [("C", 70000)] } : GsnInfo).get_next_nonce "C")
      ∧ (({ GsnInfo.new with consumer := [("C", 70000)] } : GsnInfo).calculate_fee 100
          ≤ (btGet ({ GsnInfo.new with consumer := [("C", 70000)] } : GsnInfo).consumer "C").getD 0)
      ∧ (process_submit_tx 100 0 "C" "R" "E" (.error (ProgramError.other 42))
            ({ GsnInfo.new with consumer := [("C", 70000)] })
          = ⟨.error (ProgramError.other 42), 1⟩
        ∧ persistedAfter ({ GsnInfo.new with consumer := [("C", 70000)] })
            (process_submit_tx 100 0 "C" "R" "E" (.error (ProgramError.other 42))
              ({ GsnInfo.new with consumer := [("C", 70000)] })).result
          = { GsnInfo.new with consumer := [("C", 70000)] }) :=
  ⟨by decide, by decide, by decide,
    transfer_failure_propagates_error_no_mutation.1 _ 100 0 "C" "R" "E"
      (ProgramError.other 42) (by decide) (by decide) (by decide)⟩

/-! ## Claim C7 -/

/-- C7: `UpdateFeeParams`, `AddAllowedToken` and `RemoveAllowedToken` fail
with `Unauthorized` whenever the authority account is not a signer, or
governance is absent, or the supplied key differs from the governance
authority; `UpdateFeeParams` fails with `InvalidFeeMode` on an unrecognized
fee-mode tag or a `Percent` value above 10000, and otherwise writes the new
fee mode into governance. -/
theorem governance_gate_characterization :
    (∀ (gsn : GsnInfo) (t v : Nat) (mint : String) (key : Pubkey) (sgn : Bool),
      (sgn = false ∨ gsn.governance = none ∨ gsn.is_authority key = false) →
      process_update_fee_params t v key sgn gsn = .error (GsnError.toErr .Unauthorized)
        ∧ process_add_allowed_token mint key sgn gsn = .error (GsnError.toErr .Unauthorized)
        ∧ process_remove_allowed_token mint key sgn gsn = .error (GsnError.toErr .Unauthorized))
    ∧ (∀ (gsn : GsnInfo) (t v : Nat) (key : Pubkey),
        gsn.is_authority key = true → 2 ≤ t →
        process_update_fee_params t v key true gsn = .error (GsnError.toErr .InvalidFeeMode))
    ∧ (∀ (gsn : GsnInfo) (v : Nat) (key : Pubkey),
        gsn.is_authority key = true → 10000 < v →
        process_update_fee_params 1 v key true gsn = .error (GsnError.toErr .InvalidFeeMode))
    ∧ (∀ (gsn : GsnInfo) (gov : GovernanceConfig) (v : Nat) (key : Pubkey),
        gsn.governance = some gov → gov.authority = key →
        process_update_fee_params 0 v key true gsn
          = .ok ({ gsn with governance := some ({ gov with fee_mode := FeeMode.Fixed v }) }))
    ∧ (∀ (gsn : GsnInfo) (gov : GovernanceConfig) (v : Nat) (key : Pubkey),
        gsn.governance = some gov → gov.authority = key → v ≤ 10000 →
        process_update_fee_params 1 v key true gsn
          = .ok ({ gsn with governance := some ({ gov with fee_mode := FeeMode.Percent v }) })) := by
  refine ⟨?_, ?_, ?_, ?_, ?_⟩
  · intro gsn t v mint key sgn h
    have hgate : sgn = false ∨ gsn.is_authority key = false := by
      rcases h with h | h | h
      · exact Or.inl h
      · exact Or.inr (by simp [GsnInfo.is_authority, h])
      · exact Or.inr h
    rcases hgate with h1 | h1
    · subst h1
      exact ⟨by simp [process_update_fee_params],
        by simp [process_add_allowed_token],
        by simp [process_remove_allowed_token]⟩
    · cases sgn with
      | false =>
        exact ⟨by simp [process_update_fee_params],
          by simp [process_add_allowed_token],
          by simp [process_remove_allowed_token]⟩
      | true =>
        exact ⟨by simp [process_update_fee_params, h1],
          by simp [process_add_allowed_token, h1],
          by simp [process_remove_allowed_token, h1]⟩
  · intro gsn t v key hauth ht
    rcases t with _ | _ | t
    · omega
    · omega
    · simp [process_update_fee_params, hauth]
  · intro gsn v key hauth hv
    simp [process_update_fee_params, hauth, hv, Nat.lt_irrefl]
  · intro gsn gov v key hgov hkey
    have hauth : gsn.is_authority key = true := by
      simp [GsnInfo.is_authority, hgov, hkey]
    simp [process_update_fee_params, hauth, GsnInfo.update_fee_params, hgov]
  · intro gsn gov v key hgov hkey hv
    have hauth : gsn.is_authority key = true := by
      simp [GsnInfo.is_authority, hgov, hkey]
    have hmod : v % 65536 = v := Nat.mod_eq_of_lt (by omega)
    simp [process_update_fee_params, hauth, GsnInfo.update_fee_params, hgov,
      Nat.not_lt.mpr hv, hmod]

/-- Witness for the C7 theorem at concrete inputs. -/
theorem governance_gate_characterization_witness :
    (({ GsnInfo.new with governance := some ⟨[7], FeeMode.Fixed 50000, []⟩ } : GsnInfo).governance
        = some ⟨[7], FeeMode.Fixed 50000, []⟩)
      ∧ ((⟨[7], FeeMode.Fixed 50000, []⟩ : GovernanceConfig).authority = ([7] : Pubkey))
      ∧ process_update_fee_params 0 123 [7] true
            ({ GsnInfo.new with governance := some ⟨[7], FeeMode.Fixed 50000, []⟩ })
          = .ok ({ ({ GsnInfo.new with governance := some ⟨[7], FeeMode.Fixed 50000, []⟩ } : GsnInfo) with
              governance := some ({ (⟨[7], FeeMode.Fixed 50000, []⟩ : GovernanceConfig) with
                fee_mode := FeeMode.Fixed 123 }) }) :=
  ⟨rfl, rfl,
    governance_gate_characterization.2.2.2.1 _ ⟨[7], FeeMode.Fixed 50000, []⟩ 123 [7] rfl rfl⟩

/-! ## Claim C8 -/

/-- C8: `ClaimFees` fails with `UnauthorizedFeeClaim` when the claimant is
not a signer or the destination differs from the claimant (regardless of
balance), fails with `InsufficientFunds` when the claimant's earned balance
is zero or absent, and on a successful transfer resets the claimant's
executor balance to 0 in the persisted record. -/
theorem claim_fees_characterization :
    (∀ (gsn : GsnInfo) (ek dk : Pubkey) (es : String)
        (tr : Except ProgramError Unit),
      process_claim_fees ek dk es false tr gsn
        = ⟨.error (GsnError.toErr .UnauthorizedFeeClaim), 0⟩)
    ∧ (∀ (gsn : GsnInfo) (ek dk : Pubkey) (es : String) (sgn : Bool)
          (tr : Except ProgramError Unit),
        ek ≠ dk →
        process_claim_fees ek dk es sgn tr gsn
          = ⟨.error (GsnError.toErr .UnauthorizedFeeClaim), 0⟩)
    ∧ (∀ (gsn : GsnInfo) (ek : Pubkey) (es : String)
          (tr : Except ProgramError Unit),
        (btGet gsn.executor es).getD 0 = 0 →
        process_claim_fees ek ek es true tr gsn
          = ⟨.error ProgramError.insufficientFunds, 0⟩)
    ∧ (∀ (gsn : GsnInfo) (ek : Pubkey) (es : String),
        (btGet gsn.executor es).getD 0 ≠ 0 →
        process_claim_fees ek ek es true (.ok ()) gsn
            = ⟨.ok ({ gsn with executor := btInsert gsn.executor es 0 }), 1⟩
          ∧ btGet ({ gsn with executor := btInsert gsn.executor es 0 }).executor es
            = some 0) := by
  refine ⟨?_, ?_, ?_, ?_⟩
  · intro gsn ek dk es tr
    simp [process_claim_fees]
  · intro gsn ek dk es sgn tr hne
    cases sgn with
    | false => simp [process_claim_fees]
    | true => simp [process_claim_fees, hne]
  · intro gsn ek es tr hz
    simp [process_claim_fees, hz]
  · intro gsn ek es hnz
    exact ⟨by simp [process_claim_fees, hnz], btGet_btInsert_self _ _ _⟩

/-- Witness for the C8 theorem at a concrete input. -/
theorem claim_fees_characterization_witness :
    ((btGet ({ GsnInfo.new with executor := [("E", 100000)] } : GsnInfo).executor "E").getD 0 ≠ 0)
      ∧ (process_claim_fees [9] [9] "E" true (.ok ())
            ({ GsnInfo.new with executor := [("E", 100000)] })
          = ⟨.ok ({ ({ GsnInfo.new with executor := [("E", 100000)] } : GsnInfo) with
              executor := btInsert ({ GsnInfo.new with executor := [("E", 100000)] } : GsnInfo).executor "E" 0 }), 1⟩
        ∧ btGet ({ ({ GsnInfo.new with executor := [("E", 100000)] } : GsnInfo) with
              executor := btInsert ({ GsnInfo.new with executor := [("E", 100000)] } : GsnInfo).executor "E" 0 }).executor "E"
          = some 0) :=
  ⟨by decide, claim_fees_characterization.2.2.2 _ [9] "E" (by decide)⟩

/-! ## Claim C10 -/

/-- C10: every balance and nonce advance is an unchecked `u64` addition —
`process_topup` computes `current_topup + amount`, the submit path computes
`earned_amount + fee` for the executor credit, and `increment_nonce`
computes `current_nonce + 1` — all through the wrapping `u64add`, with no
guard, saturation, or error return; each equals the mathematical sum
precisely when that sum is at most `2^64 - 1` (and wraps otherwise, as
`u64add (2^64 - 1) 1 = 0` shows). -/
theorem unchecked_u64_additions :
    (∀ a b : Nat, a < U64MOD → b < U64MOD → (u64add a b = a + b ↔ a + b ≤ U64MOD - 1))
      ∧ u64add (U64MOD - 1) 1 = 0
      ∧ (∀ (gsn : GsnInfo) (c : String),
          btGet (gsn.increment_nonce c).consumer_nonces c
            = some (u64add (gsn.get_next_nonce c) 1))
      ∧ (∀ (gsn : GsnInfo) (c : String) (cur amount : Nat),
          btGet gsn.consumer c = some cur →
          process_topup amount c gsn
            = { gsn with consumer := btOrInsert gsn.consumer c (u64add cur amount) })
      ∧ (∀ (gsn : GsnInfo) (amount : Nat) (s r e : String) (earned : Nat),
          btContains gsn.consumer s = true →
          gsn.calculate_fee amount ≤ (btGet gsn.consumer s).getD 0 →
          btGet gsn.executor e = some earned →
          (process_submit_tx amount (gsn.get_next_nonce s) s r e (.ok ()) gsn).result.map
              (fun g => g.executor)
            = .ok (btOrInsert gsn.executor e (u64add earned (gsn.calculate_fee amount)))) := by
  refine ⟨?_, ?_, ?_, ?_, ?_⟩
  · intro a b ha hb
    unfold u64add U64MOD
    unfold U64MOD at ha hb
    omega
  · decide
  · intro gsn c
    unfold GsnInfo.increment_nonce
    exact btGet_btInsert_self _ _ _
  · intro gsn c cur amount hcur
    have hc : btContains gsn.consumer c = true := by
      rw [btContains, hcur]; rfl
    simp [process_topup, hc, hcur]
  · intro gsn amount s r e earned hc hfee hearn
    have hbal : ∃ bal, btGet gsn.consumer s = some bal := by
      rcases hx : btGet gsn.consumer s with _ | bal
      · rw [btContains, hx] at hc; simp at hc
      · exact ⟨bal, rfl⟩
    obtain ⟨bal, hbalq⟩ := hbal
    rw [hbalq] at hfee
    simp only [Option.getD_some] at hfee
    have hce : btContains gsn.executor e = true := by
      rw [btContains, hearn]; rfl
    simp [process_submit_tx, hc, GsnInfo.is_nonce_used, hbalq,
      Nat.not_lt.mpr hfee, hce, hearn, GsnInfo.record_transaction_executor,
      GsnInfo.increment_nonce, Except.map]

/-- Witness for the C10 theorem at concrete inputs. -/
theorem unchecked_u64_additions_witness :
    ((5 : Nat) < U64MOD) ∧ ((7 : Nat) < U64MOD) ∧ (u64add 5 7 = 5 + 7 ↔ 5 + 7 ≤ U64MOD - 1)
      ∧ (btGet ({ GsnInfo.new with consumer := [("C", 5)] } : GsnInfo).consumer "C" = some 5)
      ∧ process_topup 7 "C" ({ GsnInfo.new with consumer := [("C", 5)] })
        = { ({ GsnInfo.new with consumer := [("C", 5)] } : GsnInfo) with
            consumer := btOrInsert ({ GsnInfo.new with consumer := [("C", 5)] } : GsnInfo).consumer "C" (u64add 5 7) } :=
  ⟨by decide, by decide, unchecked_u64_additions.1 5 7 (by decide) (by decide),
    by decide, unchecked_u64_additions.2.2.2.1 _ "C" 5 7 (by decide)⟩

/-! ## Serialization lemmas (towards C9)

For every component we prove a round-trip lemma — the parser consumes
exactly the encoding and returns the encoded value, for an arbitrary
remainder — and a prefix-rejection lemma: the parser fails on every strict
prefix of the encoding. -/

theorem leBytes_length (w n : Nat) : (leBytes w n).length = w := by
  induction w generalizing n with
  | zero => rfl
  | succ w ih => simp [leBytes, ih]

theorem leVal_leBytes (w n : Nat) (h : n < 256 ^ w) : leVal (leBytes w n) = n := by
  induction w generalizing n with
  | zero => simp at h; simp [leBytes, leVal, h]
  | succ w ih =>
    have hdiv : n / 256 < 256 ^ w := by
      rw [Nat.div_lt_iff_lt_mul (by omega)]
      calc n < 256 ^ (w + 1) := h
        _ = 256 ^ w * 256 := by rw [Nat.pow_succ]
    simp [leBytes, leVal, ih (n / 256) hdiv]
    omega

theorem readBytes_append (n : Nat) (a rest : List Nat) (h : a.length = n) :
    readBytes n (a ++ rest) = some (a, rest) := by
  unfold readBytes
  rw [if_pos (by simp [h])]
  rw [List.take_append_of_le_length (by omega), List.drop_append_of_le_length (by omega)]
  subst h
  simp

theorem readBytes_short (n : Nat) (l : List Nat) (h : l.length < n) :
    readBytes n l = none := by
  unfold readBytes
  rw [if_neg (by omega)]

theorem pUInt_rt (w n : Nat) (rest : List Nat) (h : n < 256 ^ w) :
    pUInt w (leBytes w n ++ rest) = some (n, rest) := by
  unfold pUInt
  rw [readBytes_append w _ rest (leBytes_length w n)]
  simp [leVal_leBytes w n h]

theorem pUInt_short (w : Nat) (p : List Nat) (h : p.length < w) :
    pUInt w p = none := by
  unfold pUInt
  rw [readBytes_short w p h]

theorem pBool_rt (b : Bool) (rest : List Nat) :
    pBool (encBool b ++ rest) = some (b, rest) := by
  cases b <;> rfl

/-- Splits a strict prefix of a concatenation: it either cuts strictly into
the first part, or contains the first part and cuts strictly into the
second. -/
theorem prefix_split {p d A B : List Nat} (h : A ++ B = p ++ d) (hd : d ≠ []) :
    (∃ t, t ≠ [] ∧ A = p ++ t)
      ∨ (∃ p', p = A ++ p' ∧ ∃ t, t ≠ [] ∧ B = p' ++ t) := by
  rcases List.append_eq_append_iff.mp h with ⟨a', ha1, ha2⟩ | ⟨c', hc1, hc2⟩
  · right
    exact ⟨a', ha1, d, hd, ha2⟩
  · rcases Decidable.em (c' = []) with hc | hc
    · subst hc
      right
      refine ⟨[], ?_, d, hd, ?_⟩
      · simpa using hc1.symm
      · simpa using hc2.symm
    · left
      exact ⟨c', hc, hc1⟩

theorem char_valid_nat (c : Char) :
    c.toNat < 55296 ∨ (57344 ≤ c.toNat ∧ c.toNat < 1114112) := by
  have h := c.valid
  unfold UInt32.isValidChar at h
  unfold Nat.isValidChar at h
  have : c.toNat = c.val.toNat := rfl
  omega

theorem mkChar_toNat (c : Char) (rest : List Nat) :
    mkChar? c.toNat rest = some (c, rest) := by
  unfold mkChar?
  rw [if_pos (char_valid_nat c), Char.ofNat_toNat]

theorem utf8DecodeChar_rt (c : Char) (rest : List Nat) :
    utf8DecodeChar (utf8EncodeChar c ++ rest) = some (c, rest) := by
  have hv := char_valid_nat c
  by_cases h1 : c.toNat < 128
  · unfold utf8EncodeChar
    rw [if_pos h1]
    show utf8DecodeChar (c.toNat :: rest) = some (c, rest)
    simp only [utf8DecodeChar]
    rw [if_pos h1]
    exact mkChar_toNat c rest
  · by_cases h2 : c.toNat < 2048
    · unfold utf8EncodeChar
      rw [if_neg h1, if_pos h2]
      show utf8DecodeChar ((192 + c.toNat / 64) :: (128 + c.toNat % 64) :: rest)
          = some (c, rest)
      simp only [utf8DecodeChar]
      rw [if_neg (by omega), if_neg (by omega), if_pos (by omega),
        if_pos (by omega)]
      have hval : (192 + c.toNat / 64 - 192) * 64 + (128 + c.toNat % 64 - 128)
          = c.toNat := by omega
      rw [hval]
      exact mkChar_toNat c rest
    · by_cases h3 : c.toNat < 65536
      · unfold utf8EncodeChar
        rw [if_neg h1, if_neg h2, if_pos h3]
        show utf8DecodeChar ((224 + c.toNat / 4096) :: (128 + c.toNat / 64 % 64)
            :: (128 + c.toNat % 64) :: rest) = some (c, rest)
        simp only [utf8DecodeChar]
        rw [if_neg (by omega), if_neg (by omega), if_neg (by omega),
          if_pos (by omega), if_pos (by omega)]
        have hval : (224 + c.toNat / 4096 - 224) * 4096
            + (128 + c.toNat / 64 % 64 - 128) * 64 + (128 + c.toNat % 64 - 128)
            = c.toNat := by omega
        rw [hval]
        exact mkChar_toNat c rest
      · have h4 : c.toNat < 1114112 := by omega
        unfold utf8EncodeChar
        rw [if_neg h1, if_neg h2, if_neg h3]
        show utf8DecodeChar ((240 + c.toNat / 262144) :: (128 + c.toNat / 4096 % 64)
            :: (128 + c.toNat / 64 % 64) :: (128 + c.toNat % 64) :: rest)
            = some (c, rest)
        simp only [utf8DecodeChar]
        rw [if_neg (by omega), if_neg (by omega), if_neg (by omega),
          if_neg (by omega), if_pos (by omega), if_pos (by omega)]
        have hval : (240 + c.toNat / 262144 - 240) * 262144
            + (128 + c.toNat / 4096 % 64 - 128) * 4096
            + (128 + c.toNat / 64 % 64 - 128) * 64 + (128 + c.toNat % 64 - 128)
            = c.toNat := by omega
        rw [hval]
        exact mkChar_toNat c rest

theorem utf8EncodeChar_cons (c : Char) :
    ∃ b bs, utf8EncodeChar c = b :: bs := by
  simp only [utf8EncodeChar]
  split_ifs <;> exact ⟨_, _, rfl⟩

theorem utf8EncodeChar_length_pos (c : Char) : 1 ≤ (utf8EncodeChar c).length := by
  obtain ⟨b, bs, h⟩ := utf8EncodeChar_cons c
  simp [h]

theorem utf8Decode_nil (fuel : Nat) : utf8Decode fuel [] = some [] := by
  cases fuel <;> rfl

theorem utf8Decode_rt (cs : List Char) :
    ∀ fuel : Nat, (utf8BytesOf cs).length ≤ fuel →
      utf8Decode fuel (utf8BytesOf cs) = some cs := by
  induction cs with
  | nil => intro fuel _; exact utf8Decode_nil fuel
  | cons c t ih =>
    intro fuel hfuel
    have hlen := utf8EncodeChar_length_pos c
    simp only [utf8BytesOf, List.length_append] at hfuel
    cases fuel with
    | zero => omega
    | succ fuel =>
      obtain ⟨b, bs, henc⟩ := utf8EncodeChar_cons c
      have hdec := utf8DecodeChar_rt c (utf8BytesOf t)
      rw [henc] at hdec
      simp only [List.cons_append] at hdec
      simp only [utf8BytesOf]
      rw [henc]
      simp only [List.cons_append]
      simp only [utf8Decode]
      rw [hdec]
      have hrec : utf8Decode fuel (utf8BytesOf t) = some t := by
        apply ih
        omega
      show (match utf8Decode fuel (utf8BytesOf t) with
        | some cs => some (c :: cs)
        | none => none) = some (c :: t)
      rw [hrec]

theorem encU32_rt (n : Nat) (rest : List Nat) (h : n < 4294967296) :
    pUInt 4 (encU32 n ++ rest) = some (n, rest) := by
  unfold encU32
  refine pUInt_rt 4 n rest ?_
  have h4 : (256 : Nat) ^ 4 = 4294967296 := by norm_num
  omega

theorem pStr_rt (s : String) (rest : List Nat) (hwf : wfStr s) :
    pStr (encStr s ++ rest) = some (s, rest) := by
  unfold encStr
  rw [List.append_assoc]
  unfold pStr
  rw [encU32_rt _ _ (by unfold wfStr at hwf; exact hwf)]
  show (match readBytes (utf8Bytes s).length (utf8Bytes s ++ rest) with
    | some (chunk, r2) =>
      match utf8Decode chunk.length chunk with
      | some cs => some (String.mk cs, r2)
      | none => none
    | none => none) = some (s, rest)
  rw [readBytes_append _ _ _ rfl]
  show (match utf8Decode (utf8Bytes s).length (utf8Bytes s) with
    | some cs => some (String.mk cs, rest)
    | none => none) = some (s, rest)
  unfold utf8Bytes
  rw [utf8Decode_rt s.data (utf8BytesOf s.data).length (le_refl _)]

theorem pStr_pf (s : String) (p d : List Nat) (hwf : wfStr s)
    (hsplit : encStr s = p ++ d) (hd : d ≠ []) : pStr p = none := by
  unfold encStr at hsplit
  rcases prefix_split hsplit hd with ⟨t, ht, hA⟩ | ⟨p', hp, t, ht, hB⟩
  · have hplen : p.length < 4 := by
      have := congrArg List.length hA
      simp [encU32, leBytes_length] at this
      cases t with
      | nil => exact absurd rfl ht
      | cons x xs => simp at this; omega
    unfold pStr
    rw [pUInt_short 4 p hplen]
  · have hplen : p'.length < (utf8Bytes s).length := by
      have := congrArg List.length hB
      simp at this
      cases t with
      | nil => exact absurd rfl ht
      | cons x xs => simp at this; omega
    subst hp
    unfold pStr
    rw [encU32_rt _ _ (by unfold wfStr at hwf; exact hwf)]
    show (match readBytes (utf8Bytes s).length p' with
      | some (chunk, r2) =>
        match utf8Decode chunk.length chunk with
        | some cs => some (String.mk cs, r2)
        | none => none
      | none => none) = none
    rw [readBytes_short _ _ hplen]

theorem charListLt_asymm : ∀ {a b : List Char},
    charListLt a b = true → charListLt b a = false := by
  intro a
  induction a with
  | nil =>
    intro b h
    cases b with
    | nil => simp [charListLt] at h
    | cons d u => simp [charListLt]
  | cons c t ih =>
    intro b h
    cases b with
    | nil => simp [charListLt] at h
    | cons d u =>
      simp only [charListLt] at h ⊢
      by_cases hcd : c.toNat < d.toNat
      · rw [if_neg (by omega), if_pos hcd]
      · rw [if_neg hcd] at h
        by_cases hdc : d.toNat < c.toNat
        · rw [if_pos hdc] at h
          simp at h
        · rw [if_neg hdc] at h
          rw [if_neg hdc, if_neg hcd]
          exact ih h

theorem strLt_asymm {a b : String} (h : strLt a b = true) : strLt b a = false :=
  charListLt_asymm h

theorem btInsert_append_of_all_lt {α : Type} (m : List (String × α)) (k : String)
    (v : α) (h : ∀ kv ∈ m, strLt kv.1 k = true) :
    btInsert m k v = m ++ [(k, v)] := by
  induction m with
  | nil => rfl
  | cons hd t ih =>
    obtain ⟨k', w⟩ := hd
    have hk' : strLt k' k = true := h (k', w) (by simp)
    have h1 : strLt k k' = false := strLt_asymm hk'
    simp only [btInsert]
    rw [if_neg (by rw [h1]; exact Bool.false_ne_true), if_pos hk']
    simp only [List.cons_append, List.cons.injEq, true_and]
    exact ih (fun kv hkv => h kv (by simp [hkv]))

theorem foldl_btInsert_acc {α : Type} :
    ∀ (m acc : List (String × α)),
      (∀ kv ∈ acc, ∀ kv2 ∈ m, strLt kv.1 kv2.1 = true) → wfKeys m →
      List.foldl (fun a kv => btInsert a kv.1 kv.2) acc m = acc ++ m := by
  intro m
  induction m with
  | nil => intro acc _ _; simp
  | cons hd t ih =>
    intro acc hcross hwf
    obtain ⟨k, v⟩ := hd
    have hins : btInsert acc k v = acc ++ [(k, v)] :=
      btInsert_append_of_all_lt acc k v
        (fun kv hkv => hcross kv hkv (k, v) (by simp))
    have hwft : wfKeys t := (List.pairwise_cons.mp hwf).2
    have hhead : ∀ kv2 ∈ t, strLt k kv2.1 = true := by
      intro kv2 hkv2
      exact (List.pairwise_cons.mp hwf).1 kv2 hkv2
    simp only [List.foldl_cons]
    rw [hins]
    rw [ih (acc ++ [(k, v)]) ?hcross hwft]
    · simp
    case hcross =>
      intro kv hkv kv2 hkv2
      rcases List.mem_append.mp hkv with hin | hin
      · exact hcross kv hin kv2 (by simp [hkv2])
      · have : kv = (k, v) := by simpa using hin
        subst this
        exact hhead kv2 hkv2

theorem foldl_btInsert_sorted {α : Type} (m : List (String × α)) (hwf : wfKeys m) :
    List.foldl (fun a kv => btInsert a kv.1 kv.2) [] m = m := by
  have := foldl_btInsert_acc m [] (by intro kv hkv; simp at hkv) hwf
  simpa using this

theorem pEntries_rt {α : Type} (encV : α → List Nat)
    (pV : List Nat → Option (α × List Nat)) (wfV : α → Prop)
    (hVrt : ∀ v rest, wfV v → pV (encV v ++ rest) = some (v, rest)) :
    ∀ (es : List (String × α)) (rest : List Nat),
      (∀ kv ∈ es, wfStr kv.1 ∧ wfV kv.2) →
      pEntries pV es.length (encMap.encEntries encV es ++ rest) = some (es, rest) := by
  intro es
  induction es with
  | nil => intro rest _; simp [pEntries, encMap.encEntries]
  | cons hd t ih =>
    intro rest hwf
    obtain ⟨k, v⟩ := hd
    have hk : wfStr k := (hwf (k, v) (by simp)).1
    have hv : wfV v := (hwf (k, v) (by simp)).2
    simp only [encMap.encEntries, List.length_cons, List.append_assoc]
    simp only [pEntries]
    rw [pStr_rt k _ hk]
    show (match pV (encV v ++ (encMap.encEntries encV t ++ rest)) with
      | some (v, r2) =>
        match pEntries pV t.length r2 with
        | some (es, r3) => some ((k, v) :: es, r3)
        | none => none
      | none => none) = some ((k, v) :: t, rest)
    rw [hVrt v _ hv]
    show (match pEntries pV t.length (encMap.encEntries encV t ++ rest) with
      | some (es, r3) => some ((k, v) :: es, r3)
      | none => none) = some ((k, v) :: t, rest)
    rw [ih rest (fun kv hkv => hwf kv (by simp [hkv]))]

theorem pEntries_pf {α : Type} (encV : α → List Nat)
    (pV : List Nat → Option (α × List Nat)) (wfV : α → Prop)
    (hVrt : ∀ v rest, wfV v → pV (encV v ++ rest) = some (v, rest))
    (hVpf : ∀ v p d, wfV v → encV v = p ++ d → d ≠ [] → pV p = none) :
    ∀ (es : List (String × α)) (p d : List Nat),
      (∀ kv ∈ es, wfStr kv.1 ∧ wfV kv.2) →
      encMap.encEntries encV es = p ++ d → d ≠ [] →
      pEntries pV es.length p = none := by
  intro es
  induction es with
  | nil =>
    intro p d _ hsplit hd
    simp only [encMap.encEntries] at hsplit
    have : d = [] := by
      cases p with
      | nil => simpa using hsplit.symm
      | cons x xs => simp at hsplit
    exact absurd this hd
  | cons hd t ih =>
    intro p d hwf hsplit hdne
    obtain ⟨k, v⟩ := hd
    have hk : wfStr k := (hwf (k, v) (by simp)).1
    have hv : wfV v := (hwf (k, v) (by simp)).2
    have hwft : ∀ kv ∈ t, wfStr kv.1 ∧ wfV kv.2 :=
      fun kv hkv => hwf kv (by simp [hkv])
    simp only [encMap.encEntries, List.append_assoc] at hsplit
    rcases prefix_split hsplit hdne with ⟨t1, ht1, hA⟩ | ⟨p1, hp, t1, ht1, hB⟩
    · simp only [List.length_cons, pEntries]
      rw [pStr_pf k p t1 hk hA ht1]
    · subst hp
      simp only [List.length_cons, pEntries]
      rw [pStr_rt k _ hk]
      show (match pV p1 with
        | some (v, r2) =>
          match pEntries pV t.length r2 with
          | some (es, r3) => some ((k, v) :: es, r3)
          | none => none
        | none => none) = none
      rcases prefix_split hB ht1 with ⟨t2, ht2, hA2⟩ | ⟨p2, hp2, t2, ht2, hB2⟩
      · rw [hVpf v p1 t2 hv hA2 ht2]
      · subst hp2
        rw [hVrt v _ hv]
        show (match pEntries pV t.length p2 with
          | some (es, r3) => some ((k, v) :: es, r3)
          | none => none) = none
        rw [ih p2 t2 hwft hB2 ht2]

theorem pMap_rt {α : Type} (encV : α → List Nat)
    (pV : List Nat → Option (α × List Nat)) (wfV : α → Prop)
    (hVrt : ∀ v rest, wfV v → pV (encV v ++ rest) = some (v, rest))
    (m : List (String × α)) (rest : List Nat)
    (hkeys : wfKeys m) (hlen : m.length < 4294967296)
    (hwf : ∀ kv ∈ m, wfStr kv.1 ∧ wfV kv.2) :
    pMap pV (encMap encV m ++ rest) = some (m, rest) := by
  unfold encMap
  rw [List.append_assoc]
  unfold pMap
  rw [encU32_rt _ _ hlen]
  show (match pEntries pV m.length (encMap.encEntries encV m ++ rest) with
    | some (es, r2) =>
      some (es.foldl (fun m kv => btInsert m kv.1 kv.2) [], r2)
    | none => none) = some (m, rest)
  rw [pEntries_rt encV pV wfV hVrt m rest hwf]
  show some (m.foldl (fun m kv => btInsert m kv.1 kv.2) [], rest) = some (m, rest)
  rw [foldl_btInsert_sorted m hkeys]

theorem pMap_pf {α : Type} (encV : α → List Nat)
    (pV : List Nat → Option (α × List Nat)) (wfV : α → Prop)
    (hVrt : ∀ v rest, wfV v → pV (encV v ++ rest) = some (v, rest))
    (hVpf : ∀ v p d, wfV v → encV v = p ++ d → d ≠ [] → pV p = none)
    (m : List (String × α)) (p d : List Nat)
    (hlen : m.length < 4294967296)
    (hwf : ∀ kv ∈ m, wfStr kv.1 ∧ wfV kv.2)
    (hsplit : encMap encV m = p ++ d) (hd : d ≠ []) :
    pMap pV p = none := by
  unfold encMap at hsplit
  rcases prefix_split hsplit hd with ⟨t1, ht1, hA⟩ | ⟨p1, hp, t1, ht1, hB⟩
  · have hplen : p.length < 4 := by
      have := congrArg List.length hA
      simp [encU32, leBytes_length] at this
      cases t1 with
      | nil => exact absurd rfl ht1
      | cons x xs => simp at this; omega
    unfold pMap
    rw [pUInt_short 4 p hplen]
  · subst hp
    unfold pMap
    rw [encU32_rt _ _ hlen]
    show (match pEntries pV m.length p1 with
      | some (es, r2) =>
        some (es.foldl (fun m kv => btInsert m kv.1 kv.2) [], r2)
      | none => none) = none
    rw [pEntries_pf encV pV wfV hVrt hVpf m p1 t1 hwf hB ht1]

theorem pU64_rt (n : Nat) (rest : List Nat) (h : n < U64MOD) :
    pUInt 8 (encU64 n ++ rest) = some (n, rest) := by
  unfold encU64
  refine pUInt_rt 8 n rest ?_
  have h8 : (256 : Nat) ^ 8 = U64MOD := by norm_num [U64MOD]
  omega

theorem pU64_pf (n : Nat) (p d : List Nat) (hsplit : encU64 n = p ++ d)
    (hd : d ≠ []) : pUInt 8 p = none := by
  refine pUInt_short 8 p ?_
  have := congrArg List.length hsplit
  simp [encU64, leBytes_length] at this
  cases d with
  | nil => exact absurd rfl hd
  | cons x xs => simp at this; omega

theorem pU16_rt (n : Nat) (rest : List Nat) (h : n < 65536) :
    pUInt 2 (encU16 n ++ rest) = some (n, rest) := by
  unfold encU16
  refine pUInt_rt 2 n rest ?_
  have h2 : (256 : Nat) ^ 2 = 65536 := by norm_num
  omega

theorem pU16_pf (n : Nat) (p d : List Nat) (hsplit : encU16 n = p ++ d)
    (hd : d ≠ []) : pUInt 2 p = none := by
  refine pUInt_short 2 p ?_
  have := congrArg List.length hsplit
  simp [encU16, leBytes_length] at this
  cases d with
  | nil => exact absurd rfl hd
  | cons x xs => simp at this; omega

theorem pBool_pf (b : Bool) (p d : List Nat) (hsplit : encBool b = p ++ d)
    (hd : d ≠ []) : pBool p = none := by
  have hlen := congrArg List.length hsplit
  have h1 : (encBool b).length = 1 := by cases b <;> rfl
  rw [h1] at hlen
  simp only [List.length_append] at hlen
  have hdlen : 1 ≤ d.length := by
    cases d with
    | nil => exact absurd rfl hd
    | cons _ _ => simp
  have hp : p = [] := List.eq_nil_of_length_eq_zero (by omega)
  subst hp
  rfl

theorem pFeeMode_rt (fm : FeeMode) (rest : List Nat) (hwf : wfFeeMode fm) :
    pFeeMode (encFeeMode fm ++ rest) = some (fm, rest) := by
  cases fm with
  | Fixed a =>
    simp only [encFeeMode, List.cons_append, pFeeMode]
    rw [pU64_rt a rest hwf]
  | Percent bp =>
    simp only [encFeeMode, List.cons_append, pFeeMode]
    rw [pU16_rt bp rest hwf]

theorem pFeeMode_pf (fm : FeeMode) (p d : List Nat) (hwf : wfFeeMode fm)
    (hsplit : encFeeMode fm = p ++ d) (hd : d ≠ []) : pFeeMode p = none := by
  cases fm with
  | Fixed a =>
    simp only [encFeeMode] at hsplit
    cases p with
    | nil => rfl
    | cons x xs =>
      simp only [List.cons_append, List.cons.injEq] at hsplit
      obtain ⟨hx, hxs⟩ := hsplit
      subst hx
      simp only [pFeeMode]
      rw [pU64_pf a xs d (by rw [encU64]; exact hxs) hd]
  | Percent bp =>
    simp only [encFeeMode] at hsplit
    cases p with
    | nil => rfl
    | cons x xs =>
      simp only [List.cons_append, List.cons.injEq] at hsplit
      obtain ⟨hx, hxs⟩ := hsplit
      subst hx
      simp only [pFeeMode]
      rw [pU16_pf bp xs d (by rw [encU16]; exact hxs) hd]

theorem pPubkey_rt (pk : Pubkey) (rest : List Nat) (h32 : pk.length = 32) :
    pPubkey (encPubkey pk ++ rest) = some (pk, rest) := by
  unfold pPubkey encPubkey
  rw [readBytes_append 32 pk rest h32]

theorem pPubkey_pf (pk : Pubkey) (p d : List Nat) (h32 : pk.length = 32)
    (hsplit : (encPubkey pk : List Nat) = p ++ d) (hd : d ≠ []) :
    pPubkey p = none := by
  unfold pPubkey
  rw [readBytes_short 32 p ?_]
  have := congrArg List.length hsplit
  simp [encPubkey, h32] at this
  cases d with
  | nil => exact absurd rfl hd
  | cons x xs => simp at this; omega

theorem pGov_rt (gov : GovernanceConfig) (rest : List Nat) (hwf : wfGov gov) :
    pGov (encGov gov ++ rest) = some (gov, rest) := by
  have h32 := hwf.1
  have hfm := hwf.2.2.1
  have hkeys := hwf.2.2.2.1
  have hlen := hwf.2.2.2.2.1
  have hstr := hwf.2.2.2.2.2
  unfold encGov
  rw [List.append_assoc, List.append_assoc]
  unfold pGov
  rw [pPubkey_rt gov.authority _ h32]
  show (match pFeeMode (encFeeMode gov.fee_mode ++ (encMap encBool gov.allowed_tokens ++ rest)) with
    | some (fm, r2) =>
      match pMap pBool r2 with
      | some (at_, r3) => some (GovernanceConfig.mk gov.authority fm at_, r3)
      | none => none
    | none => none) = some (gov, rest)
  rw [pFeeMode_rt gov.fee_mode _ hfm]
  show (match pMap pBool (encMap encBool gov.allowed_tokens ++ rest) with
    | some (at_, r3) => some (GovernanceConfig.mk gov.authority gov.fee_mode at_, r3)
    | none => none) = some (gov, rest)
  rw [pMap_rt encBool pBool (fun _ => True)
    (fun v rest _ => pBool_rt v rest) gov.allowed_tokens rest hkeys hlen
    (fun kv hkv => ⟨hstr kv hkv, trivial⟩)]

theorem pGov_pf (gov : GovernanceConfig) (p d : List Nat) (hwf : wfGov gov)
    (hsplit : encGov gov = p ++ d) (hd : d ≠ []) : pGov p = none := by
  have h32 := hwf.1
  have hfm := hwf.2.2.1
  have hkeys := hwf.2.2.2.1
  have hlen := hwf.2.2.2.2.1
  have hstr := hwf.2.2.2.2.2
  unfold encGov at hsplit
  rw [List.append_assoc] at hsplit
  rcases prefix_split hsplit hd with ⟨t1, ht1, hA⟩ | ⟨p1, hp, t1, ht1, hB⟩
  · unfold pGov
    rw [pPubkey_pf gov.authority p t1 h32 hA ht1]
  · subst hp
    unfold pGov
    rw [pPubkey_rt gov.authority _ h32]
    show (match pFeeMode p1 with
      | some (fm, r2) =>
        match pMap pBool r2 with
        | some (at_, r3) => some (GovernanceConfig.mk gov.authority fm at_, r3)
        | none => none
      | none => none) = none
    rcases prefix_split hB ht1 with ⟨t2, ht2, hA2⟩ | ⟨p2, hp2, t2, ht2, hB2⟩
    · rw [pFeeMode_pf gov.fee_mode p1 t2 hfm hA2 ht2]
    · subst hp2
      rw [pFeeMode_rt gov.fee_mode _ hfm]
      show (match pMap pBool p2 with
        | some (at_, r3) => some (GovernanceConfig.mk gov.authority gov.fee_mode at_, r3)
        | none => none) = none
      rw [pMap_pf encBool pBool (fun _ => True)
        (fun v rest _ => pBool_rt v rest)
        (fun v pp dd _ hs hdd => pBool_pf v pp dd hs hdd)
        gov.allowed_tokens p2 t2 hlen
        (fun kv hkv => ⟨hstr kv hkv, trivial⟩) hB2 ht2]

theorem pOptGov_rt (og : Option GovernanceConfig) (rest : List Nat)
    (hwf : ∀ gov ∈ og, wfGov gov) :
    pOptGov (encOptGov og ++ rest) = some (og, rest) := by
  cases og with
  | none => rfl
  | some gov =>
    simp only [encOptGov, List.cons_append, pOptGov]
    rw [pGov_rt gov rest (hwf gov rfl)]

theorem pOptGov_pf (og : Option GovernanceConfig) (p d : List Nat)
    (hwf : ∀ gov ∈ og, wfGov gov)
    (hsplit : encOptGov og = p ++ d) (hd : d ≠ []) : pOptGov p = none := by
  cases og with
  | none =>
    have hlen := congrArg List.length hsplit
    simp only [encOptGov, List.length_cons, List.length_nil, List.length_append] at hlen
    have hdlen : 1 ≤ d.length := by
      cases d with
      | nil => exact absurd rfl hd
      | cons _ _ => simp
    have hp : p = [] := List.eq_nil_of_length_eq_zero (by omega)
    subst hp
    rfl
  | some gov =>
    simp only [encOptGov] at hsplit
    cases p with
    | nil => rfl
    | cons x xs =>
      simp only [List.cons_append, List.cons.injEq] at hsplit
      obtain ⟨hx, hxs⟩ := hsplit
      subst hx
      simp only [pOptGov]
      rw [pGov_pf gov xs d (hwf gov rfl) hxs hd]

theorem pMapU64_rt (m : List (String × Nat)) (rest : List Nat) (h : wfMapU64 m) :
    pMap (pUInt 8) (encMap encU64 m ++ rest) = some (m, rest) :=
  pMap_rt encU64 (pUInt 8) (fun n => n < U64MOD)
    (fun v rest hv => pU64_rt v rest hv) m rest h.1 h.2.1
    (fun kv hkv => h.2.2 kv hkv)

theorem pMapU64_pf (m : List (String × Nat)) (p d : List Nat) (h : wfMapU64 m)
    (hsplit : encMap encU64 m = p ++ d) (hd : d ≠ []) :
    pMap (pUInt 8) p = none :=
  pMap_pf encU64 (pUInt 8) (fun n => n < U64MOD)
    (fun v rest hv => pU64_rt v rest hv)
    (fun v pp dd _ hs hdd => pU64_pf v pp dd hs hdd) m p d h.2.1
    (fun kv hkv => h.2.2 kv hkv) hsplit hd

theorem pMapStr_rt (m : List (String × String)) (rest : List Nat) (h : wfMapStr m) :
    pMap pStr (encMap encStr m ++ rest) = some (m, rest) :=
  pMap_rt encStr pStr wfStr
    (fun v rest hv => pStr_rt v rest hv) m rest h.1 h.2.1
    (fun kv hkv => h.2.2 kv hkv)

theorem pMapStr_pf (m : List (String × String)) (p d : List Nat) (h : wfMapStr m)
    (hsplit : encMap encStr m = p ++ d) (hd : d ≠ []) :
    pMap pStr p = none :=
  pMap_pf encStr pStr wfStr
    (fun v rest hv => pStr_rt v rest hv)
    (fun v pp dd hv hs hdd => pStr_pf v pp dd hv hs hdd) m p d h.2.1
    (fun kv hkv => h.2.2 kv hkv) hsplit hd

theorem pRecord_rt (g : GsnInfo) (rest : List Nat) (hwf : wfRecord g) :
    pRecord (serializeBytes g ++ rest) = some (g, rest) := by
  have h1 := hwf.1
  have h2 := hwf.2.1
  have h3 := hwf.2.2.1
  have h4 := hwf.2.2.2.1
  have h5 := hwf.2.2.2.2
  unfold serializeBytes
  simp only [List.append_assoc]
  unfold pRecord
  rw [pBool_rt g.is_initialized _]
  show (match pMap (pUInt 8) (encMap encU64 g.consumer ++ (encMap encU64 g.executor
      ++ (encOptGov g.governance ++ (encMap encU64 g.consumer_nonces
      ++ (encMap encStr g.transaction_executor ++ rest))))) with
    | some (cons, r2) =>
      match pMap (pUInt 8) r2 with
      | some (exec, r3) =>
        match pOptGov r3 with
        | some (gov, r4) =>
          match pMap (pUInt 8) r4 with
          | some (nonces, r5) =>
            match pMap pStr r5 with
            | some (txe, r6) =>
              some (GsnInfo.mk g.is_initialized cons exec gov nonces txe, r6)
            | none => none
          | none => none
        | none => none
      | none => none
    | none => none) = some (g, rest)
  rw [pMapU64_rt g.consumer _ h1]
  show (match pMap (pUInt 8) (encMap encU64 g.executor
      ++ (encOptGov g.governance ++ (encMap encU64 g.consumer_nonces
      ++ (encMap encStr g.transaction_executor ++ rest)))) with
    | some (exec, r3) =>
      match pOptGov r3 with
      | some (gov, r4) =>
        match pMap (pUInt 8) r4 with
        | some (nonces, r5) =>
          match pMap pStr r5 with
          | some (txe, r6) =>
            some (GsnInfo.mk g.is_initialized g.consumer exec gov nonces txe, r6)
          | none => none
        | none => none
      | none => none
    | none => none) = some (g, rest)
  rw [pMapU64_rt g.executor _ h2]
  show (match pOptGov (encOptGov g.governance ++ (encMap encU64 g.consumer_nonces
      ++ (encMap encStr g.transaction_executor ++ rest))) with
    | some (gov, r4) =>
      match pMap (pUInt 8) r4 with
      | some (nonces, r5) =>
        match pMap pStr r5 with
        | some (txe, r6) =>
          some (GsnInfo.mk g.is_initialized g.consumer g.executor gov nonces txe, r6)
        | none => none
      | none => none
    | none => none) = some (g, rest)
  rw [pOptGov_rt g.governance _ h3]
  show (match pMap (pUInt 8) (encMap encU64 g.consumer_nonces
      ++ (encMap encStr g.transaction_executor ++ rest)) with
    | some (nonces, r5) =>
      match pMap pStr r5 with
      | some (txe, r6) =>
        some (GsnInfo.mk g.is_initialized g.consumer g.executor g.governance nonces txe, r6)
      | none => none
    | none => none) = some (g, rest)
  rw [pMapU64_rt g.consumer_nonces _ h4]
  show (match pMap pStr (encMap encStr g.transaction_executor ++ rest) with
    | some (txe, r6) =>
      some (GsnInfo.mk g.is_initialized g.consumer g.executor g.governance
        g.consumer_nonces txe, r6)
    | none => none) = some (g, rest)
  rw [pMapStr_rt g.transaction_executor _ h5]

theorem pRecord_pf (g : GsnInfo) (p d : List Nat) (hwf : wfRecord g)
    (hsplit : serializeBytes g = p ++ d) (hd : d ≠ []) : pRecord p = none := by
  have h1 := hwf.1
  have h2 := hwf.2.1
  have h3 := hwf.2.2.1
  have h4 := hwf.2.2.2.1
  have h5 := hwf.2.2.2.2
  unfold serializeBytes at hsplit
  simp only [List.append_assoc] at hsplit
  rcases prefix_split hsplit hd with ⟨t1, ht1, hA⟩ | ⟨p1, hp, t1, ht1, hB⟩
  · unfold pRecord
    rw [pBool_pf g.is_initialized p t1 hA ht1]
  · subst hp
    unfold pRecord
    rw [pBool_rt g.is_initialized _]
    show (match pMap (pUInt 8) p1 with
      | some (cons, r2) =>
        match pMap (pUInt 8) r2 with
        | some (exec, r3) =>
          match pOptGov r3 with
          | some (gov, r4) =>
            match pMap (pUInt 8) r4 with
            | some (nonces, r5) =>
              match pMap pStr r5 with
              | some (txe, r6) =>
                some (GsnInfo.mk g.is_initialized cons exec gov nonces txe, r6)
              | none => none
            | none => none
          | none => none
        | none => none
      | none => none) = none
    rcases prefix_split hB ht1 with ⟨t2, ht2, hA2⟩ | ⟨p2, hp2, t2, ht2, hB2⟩
    · rw [pMapU64_pf g.consumer p1 t2 h1 hA2 ht2]
    · subst hp2
      rw [pMapU64_rt g.consumer _ h1]
      show (match pMap (pUInt 8) p2 with
        | some (exec, r3) =>
          match pOptGov r3 with
          | some (gov, r4) =>
            match pMap (pUInt 8) r4 with
            | some (nonces, r5) =>
              match pMap pStr r5 with
              | some (txe, r6) =>
                some (GsnInfo.mk g.is_initialized g.consumer exec gov nonces txe, r6)
              | none => none
            | none => none
          | none => none
        | none => none) = none
      rcases prefix_split hB2 ht2 with ⟨t3, ht3, hA3⟩ | ⟨p3, hp3, t3, ht3, hB3⟩
      · rw [pMapU64_pf g.executor p2 t3 h2 hA3 ht3]
      · subst hp3
        rw [pMapU64_rt g.executor _ h2]
        show (match pOptGov p3 with
          | some (gov, r4) =>
            match pMap (pUInt 8) r4 with
            | some (nonces, r5) =>
              match pMap pStr r5 with
              | some (txe, r6) =>
                some (GsnInfo.mk g.is_initialized g.consumer g.executor gov nonces txe, r6)
              | none => none
            | none => none
          | none => none) = none
        rcases prefix_split hB3 ht3 with ⟨t4, ht4, hA4⟩ | ⟨p4, hp4, t4, ht4, hB4⟩
        · rw [pOptGov_pf g.governance p3 t4 h3 hA4 ht4]
        · subst hp4
          rw [pOptGov_rt g.governance _ h3]
          show (match pMap (pUInt 8) p4 with
            | some (nonces, r5) =>
              match pMap pStr r5 with
              | some (txe, r6) =>
                some (GsnInfo.mk g.is_initialized g.consumer g.executor g.governance
                  nonces txe, r6)
              | none => none
            | none => none) = none
          rcases prefix_split hB4 ht4 with ⟨t5, ht5, hA5⟩ | ⟨p5, hp5, t5, ht5, hB5⟩
          · rw [pMapU64_pf g.consumer_nonces p4 t5 h4 hA5 ht5]
          · subst hp5
            rw [pMapU64_rt g.consumer_nonces _ h4]
            show (match pMap pStr p5 with
              | some (txe, r6) =>
                some (GsnInfo.mk g.is_initialized g.consumer g.executor g.governance
                  g.consumer_nonces txe, r6)
              | none => none) = none
            rw [pMapStr_pf g.transaction_executor p5 t5 h5 hB5 ht5]

theorem pBool_ge2 (b : Nat) (rest : List Nat) (hb : 2 ≤ b) :
    pBool (b :: rest) = none := by
  rcases b with _ | _ | b
  · omega
  · omega
  · rfl

/-! ## Claim C9 -/

/-- C9: the borsh serialization of any well-formed `GsnInfo` record — well-
formedness being the invariants the Rust types guarantee for every record
the program can hold, hence for every reachable record — round-trips
exactly through `deserialize`; `deserialize` rejects every strict prefix of
an encoding (truncation) and every buffer opening with an invalid `bool`
byte (malformed) with `InvalidAccountData`, rather than producing a default
record; and `serialize` into a buffer too small for the encoding fails with
`AccountDataTooSmall`. -/
theorem serialization_roundtrip_and_rejection (g : GsnInfo) (hwf : wfRecord g) :
    deserializeBytes (serializeBytes g) = .ok g
      ∧ (∀ p d, serializeBytes g = p ++ d → d ≠ [] →
          deserializeBytes p = .error ProgramError.invalidAccountData)
      ∧ (∀ buf_len, buf_len < (serializeBytes g).length →
          serializeInto g buf_len = .error ProgramError.accountDataTooSmall)
      ∧ (∀ b rest, 2 ≤ b →
          deserializeBytes (b :: rest) = .error ProgramError.invalidAccountData) := by
  refine ⟨?_, ?_, ?_, ?_⟩
  · unfold deserializeBytes
    have h := pRecord_rt g [] hwf
    rw [List.append_nil] at h
    rw [h]
  · intro p d hs hd
    unfold deserializeBytes
    rw [pRecord_pf g p d hwf hs hd]
  · intro buf_len hlen
    unfold serializeInto
    rw [if_neg (by omega)]
  · intro b rest hb
    unfold deserializeBytes pRecord
    rw [pBool_ge2 b rest hb]

/-- Witness for the C9 theorem at a concrete record with both maps, a
governance config and an audit entry populated. -/
theorem serialization_roundtrip_and_rejection_witness :
    wfRecord (GsnInfo.mk true [("A", 3)] [("B", 4)]
        (some (GovernanceConfig.mk (List.replicate 32 7) (FeeMode.Percent 100)
          [("T", true)]))
        [("A", 1)] [("A:0", "B")])
      ∧ deserializeBytes (serializeBytes (GsnInfo.mk true [("A", 3)] [("B", 4)]
          (some (GovernanceConfig.mk (List.replicate 32 7) (FeeMode.Percent 100)
            [("T", true)]))
          [("A", 1)] [("A:0", "B")]))
        = .ok (GsnInfo.mk true [("A", 3)] [("B", 4)]
          (some (GovernanceConfig.mk (List.replicate 32 7) (FeeMode.Percent 100)
            [("T", true)]))
          [("A", 1)] [("A:0", "B")]) :=
  ⟨by decide, (serialization_roundtrip_and_rejection _ (by decide)).1⟩

end SolGsn
